import Mathlib

/-!
Shallow embedding of the `rustic_sql` query engine (src/parser.rs, src/executor.rs,
src/data.rs, src/errors.rs) and verification of its natural-language specification.

Files are modelled as lists of lines (a line never contains a newline character;
the on-disk format has one trailing newline per row).  A Rust out-of-bounds index
panic is modelled as the distinguished error `ExecError.indexOutOfBounds`.
-/

deriving instance DecidableEq for Except

namespace RusticSQL

/-! ### String helpers: comma split / join (Rust `str::split(',')` and `join(",")`) -/

/-- Split a character list on a separator; mirrors Rust `str::split`:
`split "" = [""]`, `split "," = ["", ""]`. -/
def splitCharsOn (sep : Char) : List Char → List (List Char)
  | [] => [[]]
  | c :: cs =>
    if c = sep then [] :: splitCharsOn sep cs
    else
      match splitCharsOn sep cs with
      | [] => [[c]]
      | f :: rest => (c :: f) :: rest

/-- Join character lists with a separator character (Rust `Vec::join`). -/
def joinCharsSep (sep : Char) : List (List Char) → List Char
  | [] => []
  | [f] => f
  | f :: g :: rest => f ++ sep :: joinCharsSep sep (g :: rest)

theorem splitCharsOn_ne_nil (sep : Char) (cs : List Char) : splitCharsOn sep cs ≠ [] := by
  cases cs with
  | nil => simp [splitCharsOn]
  | cons c cs =>
    simp only [splitCharsOn]
    split
    · simp
    · cases h : splitCharsOn sep cs <;> simp

theorem joinCharsSep_splitCharsOn (sep : Char) (cs : List Char) :
    joinCharsSep sep (splitCharsOn sep cs) = cs := by
  induction cs with
  | nil => rfl
  | cons c cs ih =>
    simp only [splitCharsOn]
    split
    · rename_i hc
      cases h : splitCharsOn sep cs with
      | nil => exact absurd h (splitCharsOn_ne_nil sep cs)
      | cons f rest =>
        rw [h] at ih
        simp only [joinCharsSep, hc]
        simpa using ih
    · cases h : splitCharsOn sep cs with
      | nil => exact absurd h (splitCharsOn_ne_nil sep cs)
      | cons f rest =>
        rw [h] at ih
        cases rest with
        | nil => simpa [joinCharsSep] using ih
        | cons g r => simpa [joinCharsSep] using ih

/-- Rust `line.split(',')` producing the list of fields of a row. -/
def splitComma (s : String) : List String :=
  (splitCharsOn ',' s.data).map String.mk

/-- Rust `fields.join(",")`. -/
def joinComma (fields : List String) : String :=
  ⟨joinCharsSep ',' (fields.map String.data)⟩

/-- Splitting a line into fields and joining them back is the identity:
a row written back unmodified is byte-identical to the original line. -/
theorem joinComma_splitComma (s : String) : joinComma (splitComma s) = s := by
  cases s with
  | mk data =>
    simp only [joinComma, splitComma, List.map_map]
    have : (String.data ∘ String.mk) = id := rfl
    rw [this, List.map_id, joinCharsSep_splitCharsOn]

/-! ### Lexicographic string comparison (Rust `str` `Ord`: byte order, which for
valid UTF-8 equals code-point order).  Defined by structural recursion so that
concrete comparisons reduce in the kernel. -/

/-- Strict lexicographic order on character lists. -/
def lexLt : List Char → List Char → Bool
  | [], [] => false
  | [], _ :: _ => true
  | _ :: _, [] => false
  | a :: as, b :: bs =>
    if a.toNat < b.toNat then true
    else if b.toNat < a.toNat then false
    else lexLt as bs

/-- Rust `l < r` on strings. -/
def strLt (l r : String) : Bool := lexLt l.data r.data

/-- Rust `l <= r` on strings (total order, so `l <= r` iff not `r < l`). -/
def strLe (l r : String) : Bool := !(lexLt r.data l.data)

theorem lexLt_irrefl (a : List Char) : lexLt a a = false := by
  induction a with
  | nil => rfl
  | cons c cs ih => simp [lexLt, ih]

theorem lexLt_trans {a b c : List Char} (h1 : lexLt a b) (h2 : lexLt b c) : lexLt a c := by
  induction a generalizing b c with
  | nil =>
    cases c with
    | nil => cases b <;> simp_all [lexLt]
    | cons z zs => simp [lexLt]
  | cons x xs ih =>
    cases b with
    | nil => simp [lexLt] at h1
    | cons y ys =>
      cases c with
      | nil => simp [lexLt] at h2
      | cons z zs =>
        simp only [lexLt] at h1 h2 ⊢
        by_cases hxy : x.toNat < y.toNat
        · by_cases hyz : y.toNat < z.toNat
          · simp [Nat.lt_trans hxy hyz]
          · rw [if_neg hyz] at h2
            by_cases hzy : z.toNat < y.toNat
            · simp [hzy] at h2
            · have hxz : x.toNat < z.toNat := by omega
              simp [hxz]
        · rw [if_neg hxy] at h1
          by_cases hyx : y.toNat < x.toNat
          · simp [hyx] at h1
          · rw [if_neg hyx] at h1
            by_cases hyz : y.toNat < z.toNat
            · have hxz : x.toNat < z.toNat := by omega
              simp [hxz]
            · rw [if_neg hyz] at h2
              by_cases hzy : z.toNat < y.toNat
              · simp [hzy] at h2
              · rw [if_neg hzy] at h2
                have h3 : ¬ x.toNat < z.toNat := by omega
                have h4 : ¬ z.toNat < x.toNat := by omega
                rw [if_neg h3, if_neg h4]
                exact ih h1 h2

theorem lexLt_connex {a b : List Char} (h1 : lexLt a b = false) (h2 : lexLt b a = false) :
    a = b := by
  induction a generalizing b with
  | nil =>
    cases b with
    | nil => rfl
    | cons y ys => simp [lexLt] at h1
  | cons x xs ih =>
    cases b with
    | nil => simp [lexLt] at h2
    | cons y ys =>
      simp only [lexLt] at h1 h2
      by_cases hxy : x.toNat < y.toNat
      · simp [hxy] at h1
      · rw [if_neg hxy] at h1
        by_cases hyx : y.toNat < x.toNat
        · simp [hyx] at h2
        · rw [if_neg hyx] at h1
          rw [if_neg hyx, if_neg hxy] at h2
          have hval : x = y := by
            have hn : x.toNat = y.toNat := by omega
            exact Char.ext (UInt32.toNat.inj hn)
          rw [hval, ih h1 h2]

theorem strLe_total (a b : String) : strLe a b || strLe b a := by
  by_cases h : lexLt b.data a.data
  · have hf : lexLt a.data b.data = false := by
      by_contra hc
      simp only [Bool.not_eq_false] at hc
      have h0 := lexLt_trans hc h
      rw [lexLt_irrefl] at h0
      exact Bool.noConfusion h0
    simp [strLe, hf]
  · simp [strLe, h]

theorem strLe_trans {a b c : String} (h1 : strLe a b) (h2 : strLe b c) : strLe a c := by
  simp only [strLe, Bool.not_eq_true'] at h1 h2 ⊢
  by_contra hc
  simp only [Bool.not_eq_false] at hc
  cases hab : lexLt a.data b.data with
  | false =>
    have heq := lexLt_connex hab h1
    rw [heq] at hc
    rw [hc] at h2
    exact Bool.noConfusion h2
  | true =>
    have h3 := lexLt_trans hc hab
    rw [h3] at h2
    exact Bool.noConfusion h2

/-- ASCII fragment of Rust `char::is_whitespace`. -/
def isWS (c : Char) : Bool :=
  c = ' ' || c = '\t' || c = '\n' || c = '\r'

/-- Rust `str::trim_end`. -/
def trimEndStr (s : String) : String :=
  ⟨(s.data.reverse.dropWhile isWS).reverse⟩

/-! ### Errors (src/errors.rs) and the panic channel -/

/-- `SQLError` from src/errors.rs.  `invalidSyn` is the source's invalid-syntax
variant. -/
inductive SQLError where
  | invalidTable (msg : String)
  | invalidColumn (msg : String)
  | invalidSyn (msg : String)
  | genericError (msg : String)
deriving Repr, DecidableEq

/-- Execution outcome channel: either a returned `SQLError`, or a Rust
out-of-bounds indexing panic (which aborts the program). -/
inductive ExecError where
  | sql (e : SQLError)
  | indexOutOfBounds
deriving Repr, DecidableEq

/-! ### Statement tree (src/parser.rs data types) -/

inductive Expression where
  | binaryOp (left : Expression) (op : String) (right : Expression)
  | literal (val : String)
  | column (name : String)
deriving Repr, DecidableEq

structure OrderBy where
  column : String
  ascending : Bool
deriving Repr, DecidableEq

structure SelectQuery where
  columns : List String
  table : String
  where_clause : Option Expression
  order_by : Option OrderBy
deriving Repr, DecidableEq

structure InsertQuery where
  table : String
  columns : List String
  values : List String
deriving Repr, DecidableEq

structure Assignment where
  column : String
  value : String
deriving Repr, DecidableEq

structure UpdateQuery where
  table : String
  assignments : List Assignment
  where_clause : Option Expression
deriving Repr, DecidableEq

structure DeleteQuery where
  table : String
  where_clause : Option Expression
deriving Repr, DecidableEq

inductive SQLQuery where
  | select (q : SelectQuery)
  | insert (q : InsertQuery)
  | update (q : UpdateQuery)
  | delete (q : DeleteQuery)
deriving Repr, DecidableEq

/-! ### Schema (src/data.rs)

Rust's `HashMap<String, usize>` built by `collect` over `(name, idx)` pairs is
modelled as an association list with insert-replace semantics (later duplicate
keys overwrite earlier ones), which reproduces the map's contents exactly. -/

structure TableSchema where
  columns : List (String × Nat)
deriving Repr, DecidableEq

/-- `HashMap::insert`: replace an existing binding for the key, else append. -/
def mapInsert (m : List (String × Nat)) (k : String) (v : Nat) : List (String × Nat) :=
  match m with
  | [] => [(k, v)]
  | (k0, v0) :: rest => if k0 = k then (k, v) :: rest else (k0, v0) :: mapInsert rest k v

/-- `HashMap::get`. -/
def mapFind (m : List (String × Nat)) (k : String) : Option Nat :=
  match m with
  | [] => none
  | (k0, v0) :: rest => if k0 = k then some v0 else mapFind rest k

/-- First line of the file, as produced by `read_line` (empty file gives `""`). -/
def headerOf (lines : List String) : String :=
  match lines with
  | [] => ""
  | h :: _ => h

/-- Schema construction from the header line:
`header_line.trim_end().split(',').enumerate().map(|(i, c)| (c, i)).collect()`. -/
def schemaOf (header : String) : TableSchema :=
  ⟨(splitComma (trimEndStr header)).enum.foldl (fun m p => mapInsert m p.2 p.1) []⟩

/-- `read_table_schema` from src/data.rs, on the file's lines. -/
def read_table_schema (lines : List String) : TableSchema :=
  schemaOf (headerOf lines)

/-! ### Predicate evaluation (src/executor.rs `get_value`, `evaluate_where_clause`) -/

/-- `get_value`: a literal evaluates to itself; a column reads the row field at
the schema ordinal (Rust `row_values[idx]` panics when the index is out of
bounds); any other expression is an evaluation-time syntax error. -/
def get_value (expr : Expression) (schema : TableSchema) (row_values : List String) :
    Except ExecError String :=
  match expr with
  | .literal val => .ok val
  | .column colName =>
    match mapFind schema.columns colName with
    | some idx =>
      match row_values[idx]? with
      | some v => .ok v
      | none => .error .indexOutOfBounds
    | none => .error (.sql (.invalidColumn ("Column " ++ colName ++ " does not exist")))
  | .binaryOp _ _ _ => .error (.sql (.invalidSyn "Unsupported expression"))

/-- `evaluate_where_clause`: a single `BinaryOp` whose operands evaluate via
`get_value`, compared as raw text with the string (lexicographic) order; any
other top-level shape or operator is an evaluation-time syntax error. -/
def evaluate_where_clause (expr : Expression) (schema : TableSchema)
    (row_values : List String) : Except ExecError Bool :=
  match expr with
  | .binaryOp left op right => do
    let l ← get_value left schema row_values
    let r ← get_value right schema row_values
    match op with
    | "=" => .ok (l == r)
    | "<" => .ok (strLt l r)
    | ">" => .ok (strLt r l)
    | "<=" => .ok (strLe l r)
    | ">=" => .ok (strLe r l)
    | "<>" => .ok (!(l == r))
    | _ => .error (.sql (.invalidSyn ("Unknown operator " ++ op)))
  | _ => .error (.sql (.invalidSyn "Unsupported expression in WHERE clause"))

example : evaluate_where_clause (.binaryOp (.column "age") ">" (.literal "25"))
    ⟨[("id", 0), ("age", 1)]⟩ ["1", "30"] = .ok true := by decide

example : evaluate_where_clause (.binaryOp (.literal "a") "=" (.literal "a"))
    ⟨[]⟩ [] = .ok true := by decide

example : splitComma "1,Alice,30" = ["1", "Alice", "30"] := by decide

example : read_table_schema ["id,name,age", "1,Alice,30"] =
    ⟨[("id", 0), ("name", 1), ("age", 2)]⟩ := by decide

/-! ### Tokenizer (src/parser.rs `tokenize`) -/

inductive Token where
  | keyword (s : String)
  | identifier (s : String)
  | operator (s : String)
  | literal (s : String)
  | comma
  | semicolon
  | asterisk
  | openParen
  | closeParen
  | eof
deriving Repr, DecidableEq

/-- The fixed keyword set. -/
def keywordSet : List String :=
  ["SELECT", "FROM", "WHERE", "ORDER", "BY", "ASC", "DESC", "INSERT",
   "INTO", "VALUES", "UPDATE", "SET", "DELETE", "AND", "OR", "NOT"]

/-- Loop predicate of the identifier branch: Rust
`ch.is_alphanumeric() || ch == '_'` (ASCII fragment). -/
def isIdentChar (c : Char) : Bool := c.isAlphanum || c = '_'

/-- ASCII fragment of Rust `str::to_uppercase`, defined on the character list so
that it reduces in the kernel. -/
def strToUpper (s : String) : String := ⟨s.data.map Char.toUpper⟩

theorem length_dropWhile_le (p : α → Bool) (l : List α) :
    (l.dropWhile p).length ≤ l.length := by
  induction l with
  | nil => simp
  | cons a l ih =>
    by_cases h : p a
    · rw [List.dropWhile_cons_of_pos h, List.length_cons]; omega
    · rw [List.dropWhile_cons_of_neg h]

/-- Worker of `tokenize` over the remaining characters.  Every branch consumes
at least one character, matching the source loop. -/
def tokenize_from (input : List Char) : Except SQLError (List Token) :=
  match input with
  | [] => .ok [.eof]
  | c :: cs =>
    if c = ' ' || c = '\t' || c = '\n' || c = '\r' then
      tokenize_from cs
    else if c = ',' then
      (Token.comma :: ·) <$> tokenize_from cs
    else if c = ';' then
      (Token.semicolon :: ·) <$> tokenize_from cs
    else if c = '*' then
      (Token.asterisk :: ·) <$> tokenize_from cs
    else if c = '(' then
      (Token.openParen :: ·) <$> tokenize_from cs
    else if c = ')' then
      (Token.closeParen :: ·) <$> tokenize_from cs
    else if c = '=' || c = '>' || c = '<' then
      -- the one-character operator may consume one extra following '='
      if cs.head? = some '=' then
        (Token.operator ⟨[c, '=']⟩ :: ·) <$> tokenize_from cs.tail
      else
        (Token.operator ⟨[c]⟩ :: ·) <$> tokenize_from cs
    else if c = '\'' then
      -- single-quoted literal: consume up to the closing quote (dropped via
      -- `tail`), or silently up to end of input when the closing quote is
      -- absent (`tail` of the empty remainder is empty)
      (Token.literal ⟨cs.takeWhile (fun ch => ch ≠ '\'')⟩ :: ·) <$>
        tokenize_from (cs.dropWhile (fun ch => ch ≠ '\'')).tail
    else if hAlpha : c.isAlpha then
      let run := (c :: cs).takeWhile isIdentChar
      let upper := strToUpper ⟨run⟩
      let tok := if keywordSet.contains upper then Token.keyword upper
                 else Token.identifier ⟨run⟩
      (tok :: ·) <$> tokenize_from ((c :: cs).dropWhile isIdentChar)
    else if hDigit : c.isDigit then
      (Token.literal ⟨(c :: cs).takeWhile Char.isDigit⟩ :: ·) <$>
        tokenize_from ((c :: cs).dropWhile Char.isDigit)
    else
      .error (.invalidSyn ("Unexpected character: " ++ ⟨[c]⟩))
termination_by input.length
decreasing_by
  all_goals simp only [List.length_cons, List.length_nil]
  all_goals first
  | omega
  | (have h3 := List.length_tail cs
     omega)
  | (have h1 := length_dropWhile_le (fun ch => decide (ch ≠ '\'')) cs
     have h2 := List.length_tail (cs.dropWhile (fun ch => decide (ch ≠ '\'')))
     omega)
  | (have hc : isIdentChar c = true := by
       simp [isIdentChar, Char.isAlphanum, hAlpha]
     rw [List.dropWhile_cons_of_pos hc]
     have h1 := length_dropWhile_le isIdentChar cs
     omega)
  | (rw [List.dropWhile_cons_of_pos hDigit]
     have h1 := length_dropWhile_le Char.isDigit cs
     omega)

/-- `tokenize` from src/parser.rs. -/
def tokenize (input : String) : Except SQLError (List Token) :=
  tokenize_from input.data

example : tokenize "SELECT name FROM users WHERE age >= 25;" =
    .ok [.keyword "SELECT", .identifier "name", .keyword "FROM", .identifier "users",
         .keyword "WHERE", .identifier "age", .operator ">=", .literal "25",
         .semicolon, .eof] := by
  simp +decide [tokenize, tokenize_from]

/-! ### Parser (src/parser.rs)

Each clause parser takes the token list and the cursor index and returns the
parsed fragment together with the advanced cursor, or the first syntax error.
-/

/-- `parse_expression`: exactly one `column operator literal` predicate. -/
def parse_expression (ts : List Token) (i : Nat) : Except SQLError (Expression × Nat) :=
  match ts[i]? with
  | some (.identifier name) =>
    match ts[i+1]? with
    | some (.operator op) =>
      match ts[i+2]? with
      | some (.literal v) =>
        .ok (.binaryOp (.column name) op (.literal v), i + 3)
      | _ => .error (.invalidSyn "Expected literal value in expression")
    | _ => .error (.invalidSyn "Expected operator in expression")
  | _ => .error (.invalidSyn "Expected column name in expression")

/-- `parse_order_by`: column name with optional ASC/DESC (default ASC). -/
def parse_order_by (ts : List Token) (i : Nat) : Except SQLError (OrderBy × Nat) :=
  match ts[i]? with
  | some (.identifier name) =>
    match ts[i+1]? with
    | some (.keyword "ASC") => .ok (⟨name, true⟩, i + 2)
    | some (.keyword "DESC") => .ok (⟨name, false⟩, i + 2)
    | _ => .ok (⟨name, true⟩, i + 1)
  | _ => .error (.invalidSyn "Expected column name in ORDER BY")

/-- The optional-WHERE step, inlined identically in `parse_select`,
`parse_update` and `parse_delete` in the source. -/
def parse_where_opt (ts : List Token) (i : Nat) :
    Except SQLError (Option Expression × Nat) :=
  match ts[i]? with
  | some (.keyword k) =>
    if k = "WHERE" then
      match parse_expression ts (i + 1) with
      | .ok (e, j) => .ok (some e, j)
      | .error e => .error e
    else .ok (none, i)
  | _ => .ok (none, i)

/-- The optional ORDER BY step of `parse_select`. -/
def parse_order_opt (ts : List Token) (i : Nat) :
    Except SQLError (Option OrderBy × Nat) :=
  match ts[i]? with
  | some (.keyword k) =>
    if k = "ORDER" then
      match ts[i+1]? with
      | some (.keyword k2) =>
        if k2 = "BY" then
          match parse_order_by ts (i + 2) with
          | .ok (ob, j) => .ok (some ob, j)
          | .error e => .error e
        else .error (.invalidSyn "Expected BY after ORDER")
      | _ => .error (.invalidSyn "Expected BY after ORDER")
    else .ok (none, i)
  | _ => .ok (none, i)

/-- The trailing semicolon-or-end check shared by all four statement parsers. -/
def expect_end (ts : List Token) (i : Nat) : Except SQLError Unit :=
  match ts[i]? with
  | some .semicolon => .ok ()
  | some .eof => .ok ()
  | _ => .error (.invalidSyn "Expected semicolon at the end of query")

/-- `parse_select_list`: one or more `col | *` separated by commas. -/
def parse_select_list (ts : List Token) (i : Nat) :
    Except SQLError (List String × Nat) :=
  match ts[i]? with
  | some .asterisk =>
    (match h2 : ts[i+1]? with
     | some .comma =>
       match parse_select_list ts (i + 2) with
       | .ok (rest, j) => .ok ("*" :: rest, j)
       | .error e => .error e
     | _ => .ok (["*"], i + 1))
  | some (.identifier name) =>
    (match h2 : ts[i+1]? with
     | some .comma =>
       match parse_select_list ts (i + 2) with
       | .ok (rest, j) => .ok (name :: rest, j)
       | .error e => .error e
     | _ => .ok ([name], i + 1))
  | _ => .error (.invalidSyn "Expected column name or asterisk")
termination_by ts.length - i
decreasing_by
  all_goals
    have h3 : i + 1 < ts.length := (List.getElem?_eq_some_iff.mp h2).1
    omega

/-- `parse_column_list`: identifiers separated by commas, stopping (without
consuming) at the closing parenthesis. -/
def parse_column_list (ts : List Token) (i : Nat) :
    Except SQLError (List String × Nat) :=
  match ts[i]? with
  | some (.identifier name) =>
    (match h2 : ts[i+1]? with
     | some .comma =>
       match parse_column_list ts (i + 2) with
       | .ok (rest, j) => .ok (name :: rest, j)
       | .error e => .error e
     | some .closeParen => .ok ([name], i + 1)
     | _ => .error (.invalidSyn "Expected comma or close paren in column list"))
  | _ => .error (.invalidSyn "Expected column name in column list")
termination_by ts.length - i
decreasing_by
  all_goals
    have h3 : i + 1 < ts.length := (List.getElem?_eq_some_iff.mp h2).1
    omega

/-- `parse_values_list`: literals separated by commas, stopping (without
consuming) at the closing parenthesis. -/
def parse_values_list (ts : List Token) (i : Nat) :
    Except SQLError (List String × Nat) :=
  match ts[i]? with
  | some (.literal v) =>
    (match h2 : ts[i+1]? with
     | some .comma =>
       match parse_values_list ts (i + 2) with
       | .ok (rest, j) => .ok (v :: rest, j)
       | .error e => .error e
     | some .closeParen => .ok ([v], i + 1)
     | _ => .error (.invalidSyn "Expected comma or close paren in values list"))
  | _ => .error (.invalidSyn "Expected literal value in values list")
termination_by ts.length - i
decreasing_by
  all_goals
    have h3 : i + 1 < ts.length := (List.getElem?_eq_some_iff.mp h2).1
    omega

/-- `parse_assignments`: one or more `col = literal` separated by commas. -/
def parse_assignments (ts : List Token) (i : Nat) :
    Except SQLError (List Assignment × Nat) :=
  match ts[i]? with
  | some (.identifier col) =>
    (match ts[i+1]? with
     | some (.operator op) =>
       if op = "=" then
         match ts[i+2]? with
         | some (.literal v) =>
           (match h4 : ts[i+3]? with
            | some .comma =>
              match parse_assignments ts (i + 4) with
              | .ok (rest, j) => .ok (⟨col, v⟩ :: rest, j)
              | .error e => .error e
            | _ => .ok ([⟨col, v⟩], i + 3))
         | _ => .error (.invalidSyn "Expected literal value in assignment")
       else .error (.invalidSyn "Expected equals in assignment")
     | _ => .error (.invalidSyn "Expected equals in assignment"))
  | _ => .error (.invalidSyn "Expected column name in assignment")
termination_by ts.length - i
decreasing_by
  all_goals
    have h3 : i + 3 < ts.length := (List.getElem?_eq_some_iff.mp h4).1
    omega

/-- The continuation of `parse_select` after the optional WHERE clause:
optional ORDER BY, then the trailing semicolon-or-end check. -/
def parse_select_after_where (ts : List Token) (columns : List String)
    (table : String) (wc : Option Expression) (i : Nat) :
    Except SQLError (SQLQuery × Nat) :=
  match parse_order_opt ts i with
  | .error e => .error e
  | .ok (ob, i3) =>
    match expect_end ts i3 with
    | .ok _ => .ok (.select ⟨columns, table, wc, ob⟩, i3)
    | .error e => .error e

/-- `parse_select`, entered with the cursor on the SELECT keyword. -/
def parse_select (ts : List Token) (i0 : Nat) : Except SQLError (SQLQuery × Nat) :=
  match parse_select_list ts (i0 + 1) with
  | .error e => .error e
  | .ok (columns, i1) =>
    match ts[i1]? with
    | some (.keyword k) =>
      if k = "FROM" then
        match ts[i1+1]? with
        | some (.identifier table) =>
          (match parse_where_opt ts (i1 + 2) with
           | .error e => .error e
           | .ok (wc, i2) => parse_select_after_where ts columns table wc i2)
        | _ => .error (.invalidSyn "Expected table name")
      else .error (.invalidSyn "Expected FROM keyword")
    | _ => .error (.invalidSyn "Expected FROM keyword")

/-- The continuation of `parse_update` after the optional WHERE clause. -/
def parse_update_after_where (ts : List Token) (table : String)
    (assignments : List Assignment) (wc : Option Expression) (i : Nat) :
    Except SQLError (SQLQuery × Nat) :=
  match expect_end ts i with
  | .ok _ => .ok (.update ⟨table, assignments, wc⟩, i)
  | .error e => .error e

/-- `parse_update`, entered with the cursor on the UPDATE keyword. -/
def parse_update (ts : List Token) (i0 : Nat) : Except SQLError (SQLQuery × Nat) :=
  match ts[i0+1]? with
  | some (.identifier table) =>
    (match ts[i0+2]? with
     | some (.keyword k) =>
       if k = "SET" then
         match parse_assignments ts (i0 + 3) with
         | .error e => .error e
         | .ok (assignments, i1) =>
           match parse_where_opt ts i1 with
           | .error e => .error e
           | .ok (wc, i2) => parse_update_after_where ts table assignments wc i2
       else .error (.invalidSyn "Expected SET keyword")
     | _ => .error (.invalidSyn "Expected SET keyword"))
  | _ => .error (.invalidSyn "Expected table name after UPDATE")

/-- The continuation of `parse_delete` after the optional WHERE clause. -/
def parse_delete_after_where (ts : List Token) (table : String)
    (wc : Option Expression) (i : Nat) : Except SQLError (SQLQuery × Nat) :=
  match expect_end ts i with
  | .ok _ => .ok (.delete ⟨table, wc⟩, i)
  | .error e => .error e

/-- `parse_delete`, entered with the cursor on the DELETE keyword. -/
def parse_delete (ts : List Token) (i0 : Nat) : Except SQLError (SQLQuery × Nat) :=
  match ts[i0+1]? with
  | some (.keyword k) =>
    if k = "FROM" then
      match ts[i0+2]? with
      | some (.identifier table) =>
        (match parse_where_opt ts (i0 + 3) with
         | .error e => .error e
         | .ok (wc, i2) => parse_delete_after_where ts table wc i2)
      | _ => .error (.invalidSyn "Expected table name after FROM")
    else .error (.invalidSyn "Expected FROM keyword after DELETE")
  | _ => .error (.invalidSyn "Expected FROM keyword after DELETE")

/-- `parse_insert`, entered with the cursor on the INSERT keyword. -/
def parse_insert (ts : List Token) (i0 : Nat) : Except SQLError (SQLQuery × Nat) :=
  match ts[i0+1]? with
  | some (.keyword kInto) =>
    if kInto = "INTO" then
      match ts[i0+2]? with
      | some (.identifier table) =>
        -- optional parenthesised column list
        (match colsStep : (match ts[i0+3]? with
            | some .openParen =>
              (match parse_column_list ts (i0 + 4) with
               | .error e => .error e
               | .ok (cols, j) =>
                 match ts[j]? with
                 | some .closeParen => Except.ok (cols, j + 1)
                 | _ => .error (.invalidSyn "Expected close paren after column list"))
            | _ => Except.ok (([] : List String), i0 + 3) : Except SQLError (List String × Nat)) with
         | .error e => .error e
         | .ok (columns, i1) =>
           match ts[i1]? with
           | some (.keyword kVals) =>
             if kVals = "VALUES" then
               match ts[i1+1]? with
               | some .openParen =>
                 (match parse_values_list ts (i1 + 2) with
                  | .error e => .error e
                  | .ok (values, i2) =>
                    match ts[i2]? with
                    | some .closeParen =>
                      (match expect_end ts (i2 + 1) with
                       | .ok _ => .ok (.insert ⟨table, columns, values⟩, i2 + 1)
                       | .error e => .error e)
                    | _ => .error (.invalidSyn "Expected close paren after values list"))
               | _ => .error (.invalidSyn "Expected open paren before values list")
             else .error (.invalidSyn "Expected VALUES keyword")
           | _ => .error (.invalidSyn "Expected VALUES keyword"))
      | _ => .error (.invalidSyn "Expected table name after INTO")
    else .error (.invalidSyn "Expected INTO keyword")
  | _ => .error (.invalidSyn "Expected INTO keyword")

/-- Top-level `parse`: dispatch on the leading keyword. -/
def parse (ts : List Token) : Except SQLError SQLQuery :=
  match ts[0]? with
  | some (Token.keyword k) =>
    if k = "SELECT" then Prod.fst <$> parse_select ts 0
    else if k = "INSERT" then Prod.fst <$> parse_insert ts 0
    else if k = "UPDATE" then Prod.fst <$> parse_update ts 0
    else if k = "DELETE" then Prod.fst <$> parse_delete ts 0
    else .error (.invalidSyn "Expected a SQL command")
  | _ => .error (.invalidSyn "Expected a SQL command")

example : parse [.keyword "SELECT", .identifier "id", .comma, .identifier "name",
    .keyword "FROM", .identifier "users", .semicolon, .eof] =
    .ok (.select ⟨["id", "name"], "users", none, none⟩) := by
  simp +decide [parse, parse_select, parse_select_list, parse_where_opt,
    parse_order_opt, expect_end, parse_select_after_where]

/-! ### Stable sorting

Rust's slice `sort`, `sort_by` and `sort_by_key` are stable sorts; for a total
preorder the output of a stable sort is uniquely determined, so any stable
sorting algorithm is a faithful denotation.  Insertion sort is used here
because it is structurally recursive and therefore reduces in the kernel. -/

/-- Insert `x` into `l` before the first element `y` with `le x y`; on ties the
earlier element stays first. -/
def insertSorted (le : α → α → Bool) (x : α) : List α → List α
  | [] => [x]
  | y :: ys => if le x y then x :: y :: ys else y :: insertSorted le x ys

/-- Stable sort by the boolean comparison `le` (the element processed earlier
wins ties). -/
def sortByStable (le : α → α → Bool) (l : List α) : List α :=
  l.foldr (insertSorted le) []

theorem mem_insertSorted (le : α → α → Bool) (x : α) (l : List α) (z : α) :
    z ∈ insertSorted le x l ↔ z = x ∨ z ∈ l := by
  induction l with
  | nil => simp [insertSorted]
  | cons y ys ih =>
    simp only [insertSorted]
    split
    · simp [or_comm, or_assoc, or_left_comm]
    · simp only [List.mem_cons, ih]
      tauto

theorem pairwise_insertSorted (le : α → α → Bool)
    (total : ∀ a b, le a b || le b a)
    (trans : ∀ a b c, le a b → le b c → le a c)
    (x : α) (l : List α) (h : l.Pairwise (fun a b => le a b)) :
    (insertSorted le x l).Pairwise (fun a b => le a b) := by
  induction l with
  | nil => simp [insertSorted]
  | cons y ys ih =>
    simp only [insertSorted]
    split
    · rename_i hxy
      constructor
      · intro z hz
        rcases List.mem_cons.mp hz with hz | hz
        · rw [hz]; exact hxy
        · exact trans x y z hxy ((List.pairwise_cons.mp h).1 z hz)
      · exact h
    · rename_i hxy
      have hyx : le y x := by
        have := total x y
        simp only [Bool.or_eq_true] at this
        rcases this with h1 | h1
        · exact absurd h1 hxy
        · exact h1
      rw [List.pairwise_cons] at h
      constructor
      · intro z hz
        rcases (mem_insertSorted le x ys z).mp hz with hz | hz
        · rw [hz]; exact hyx
        · exact h.1 z hz
      · exact ih h.2

theorem pairwise_sortByStable (le : α → α → Bool)
    (total : ∀ a b, le a b || le b a)
    (trans : ∀ a b c, le a b → le b c → le a c)
    (l : List α) : (sortByStable le l).Pairwise (fun a b => le a b) := by
  induction l with
  | nil => simp [sortByStable]
  | cons x xs ih =>
    exact pairwise_insertSorted le total trans x _ ih

theorem filter_insertSorted (le : α → α → Bool) (p : α → Bool)
    (hp : ∀ a b, p a → p b → le a b) (x : α) (l : List α) :
    (insertSorted le x l).filter p =
      if p x then x :: l.filter p else l.filter p := by
  induction l with
  | nil => cases hpx : p x <;> simp [insertSorted, List.filter, hpx]
  | cons y ys ih =>
    simp only [insertSorted]
    split
    · rename_i hxy
      cases hpx : p x <;> cases hpy : p y <;> simp [List.filter, hpx, hpy]
    · rename_i hxy
      cases hpy : p y with
      | true =>
        have hpx : p x = false := by
          by_contra hc
          simp only [Bool.not_eq_false] at hc
          exact hxy (hp x y hc hpy)
        simp [List.filter, hpy, hpx, ih]
      | false =>
        cases hpx : p x <;> simp [List.filter, hpy, hpx, ih]

/-- Stability: the subsequence of elements in any equivalence class of the
comparison (here: satisfying `p`, with `le` holding within `p`) is unchanged by
the sort. -/
theorem filter_sortByStable (le : α → α → Bool) (p : α → Bool)
    (hp : ∀ a b, p a → p b → le a b) (l : List α) :
    (sortByStable le l).filter p = l.filter p := by
  induction l with
  | nil => rfl
  | cons x xs ih =>
    show (insertSorted le x (sortByStable le xs)).filter p = _
    rw [filter_insertSorted le p hp]
    by_cases hpx : p x
    · simp [hpx, ih, List.filter]
    · simp [hpx, ih, List.filter]

theorem perm_insertSorted (le : α → α → Bool) (x : α) (l : List α) :
    (insertSorted le x l).Perm (x :: l) := by
  induction l with
  | nil => simp [insertSorted]
  | cons y ys ih =>
    simp only [insertSorted]
    split
    · exact List.Perm.refl _
    · exact (List.Perm.cons y ih).trans (List.Perm.swap x y ys)

theorem perm_sortByStable (le : α → α → Bool) (l : List α) :
    (sortByStable le l).Perm l := by
  induction l with
  | nil => exact List.Perm.refl _
  | cons x xs ih =>
    exact (perm_insertSorted le x _).trans (List.Perm.cons x ih)

/-! ### Executor: SELECT (src/executor.rs) -/

/-- `get_selected_indices`: a lone `*` expands to all schema ordinals in
ascending order (the `HashMap` values are collected and sorted); otherwise each
name resolves through the schema, failing on the first unknown column. -/
def get_selected_indices (q : SelectQuery) (schema : TableSchema) :
    Except ExecError (List Nat) :=
  if q.columns = ["*"] then
    .ok (sortByStable (fun a b => Nat.ble a b) (schema.columns.map Prod.snd))
  else
    q.columns.mapM (fun col =>
      match mapFind schema.columns col with
      | some idx => .ok idx
      | none => .error (.sql (.invalidColumn ("Column " ++ col ++ " does not exist"))))

/-- Projection of a row to the selected ordinals; Rust `row_values[idx]` panics
when an ordinal is out of bounds. -/
def project_row (selected : List Nat) (row : List String) :
    Except ExecError (List String) :=
  selected.mapM (fun idx =>
    match row[idx]? with
    | some v => .ok v
    | none => .error .indexOutOfBounds)

/-- The scan loop of `process_rows`: filter by the optional WHERE clause and
project each kept row. -/
def gather_rows (q : SelectQuery) (schema : TableSchema) (selected : List Nat) :
    List String → Except ExecError (List (List String))
  | [] => .ok []
  | line :: rest => do
    let row := splitComma line
    let keep ← match q.where_clause with
      | some w => evaluate_where_clause w schema row
      | none => pure true
    if keep then do
      let sel ← project_row selected row
      let out ← gather_rows q schema selected rest
      .ok (sel :: out)
    else
      gather_rows q schema selected rest

/-- Rust `iter().position(pred)`: index of the first element equal to the
target. -/
def position_of (target : Nat) : List Nat → Option Nat
  | [] => none
  | x :: xs => if x = target then some 0 else (position_of target xs).map (· + 1)

/-- `sort_results`: resolve the ORDER BY column in the schema, locate its
position among the selected ordinals (unknown-column error when absent), and
stably sort by lexicographic comparison of that projected field.  Rust's
`sort_by` is a stable sort, denoted here by the stable `sortByStable`. -/
def sort_results (results : List (List String)) (selected : List Nat)
    (schema : TableSchema) (ob : OrderBy) : Except ExecError (List (List String)) :=
  match mapFind schema.columns ob.column with
  | none => .error (.sql (.invalidColumn ("Column " ++ ob.column ++ " does not exist")))
  | some orderIdx =>
    match position_of orderIdx selected with
    | none => .error (.sql (.invalidColumn
        ("Column " ++ ob.column ++ " is not in the selected columns")))
    | some pos =>
      if ob.ascending then
        .ok (sortByStable (fun a b => strLe (a.getD pos "") (b.getD pos "")) results)
      else
        .ok (sortByStable (fun a b => strLe (b.getD pos "") (a.getD pos "")) results)

/-- `output_results`: the header line of selected column names followed by the
comma-joined result rows.  The `find ... unwrap()` on each ordinal panics if no
schema entry carries it (impossible for indices produced by
`get_selected_indices`). -/
def output_results (selected : List Nat) (schema : TableSchema)
    (results : List (List String)) : Except ExecError (List String) := do
  let headers ← selected.mapM (fun idx =>
    match schema.columns.find? (fun p => p.2 = idx) with
    | some p => Except.ok p.1
    | none => .error .indexOutOfBounds)
  .ok (joinComma headers :: results.map joinComma)

/-- `execute_select` on the table file's lines, producing the printed lines. -/
def execute_select (q : SelectQuery) (lines : List String) :
    Except ExecError (List String) := do
  let schema := read_table_schema lines
  let selected ← get_selected_indices q schema
  let results ← gather_rows q schema selected (lines.drop 1)
  let sorted ← match q.order_by with
    | some ob => sort_results results selected schema ob
    | none => pure results
  output_results selected schema sorted

example : execute_select ⟨["name", "age"], "users",
      some (.binaryOp (.column "age") ">" (.literal "25")),
      some ⟨"age", false⟩⟩
    ["id,name,age", "1,Alice,30", "2,Bob,25"] =
    .ok ["name,age", "Alice,30"] := by
  simp +decide [execute_select, read_table_schema, get_selected_indices,
    gather_rows, sort_results, output_results, project_row, bind, Except.bind]

/-! ### Executor: INSERT (src/executor.rs `execute_insert`) -/

/-- The column list `execute_insert` uses: the explicit list, or the full
schema in ordinal order when the list is omitted (the `HashMap` keys are
collected and stably sorted by their ordinal). -/
def insert_columns (q : InsertQuery) (schema : TableSchema) : List String :=
  if q.columns.isEmpty then
    (sortByStable (fun a b => Nat.ble a.2 b.2) schema.columns).map Prod.fst
  else q.columns

/-- `execute_insert` on the table file's lines, producing the new lines
(`columns` empty means the full schema in ordinal order). -/
def execute_insert (q : InsertQuery) (lines : List String) :
    Except ExecError (List String) := do
  let schema := read_table_schema lines
  let columns_to_insert := insert_columns q schema
  -- validate that all specified columns exist
  match columns_to_insert.find? (fun c => (mapFind schema.columns c).isNone) with
  | some c => .error (.sql (.invalidColumn ("Column " ++ c ++ " does not exist")))
  | none =>
    if columns_to_insert.length ≠ q.values.length then
      .error (.sql (.invalidSyn "Number of columns and values do not match"))
    else do
      let num_columns := schema.columns.length
      -- fill the full-width empty row; Rust `new_row[idx] = val` panics
      -- when the ordinal is out of bounds
      let new_row ← (columns_to_insert.zip q.values).foldlM
        (fun row cv =>
          match mapFind schema.columns cv.1 with
          | some idx =>
            if idx < row.length then Except.ok (row.set idx cv.2)
            else .error .indexOutOfBounds
          | none => .error .indexOutOfBounds)
        (List.replicate num_columns "")
      .ok (lines ++ [joinComma new_row])

example : execute_insert ⟨"users", ["id", "name"], ["3", "Carol"]⟩
    ["id,name,age", "1,Alice,30"] =
    .ok ["id,name,age", "1,Alice,30", "3,Carol,"] := by
  simp +decide [execute_insert, read_table_schema, bind, Except.bind]

/-! ### Executor: UPDATE and DELETE (src/executor.rs)

The file system is modelled by the table file's lines and the temporary file's
lines.  All writes during the scan go to the temporary file; only the final
rename assigns to the table. -/

structure FS where
  table : List String
  temp : List String
deriving Repr, DecidableEq

/-- `apply_assignments`: overwrite each assigned ordinal in order
(`row_values[idx] = val`, a panic when out of bounds; the ordinal is present in
the schema because assignment columns were validated). -/
def apply_assignments (assignments : List Assignment) (schema : TableSchema)
    (row : List String) : Except ExecError (List String) :=
  assignments.foldlM
    (fun r a =>
      match mapFind schema.columns a.column with
      | some idx =>
        if idx < r.length then Except.ok (r.set idx a.value)
        else .error .indexOutOfBounds
      | none => .error .indexOutOfBounds)
    row

/-- One row of the UPDATE scan.  `should_update` defaults to `true` and is only
overwritten by the WHERE clause's verdict when a WHERE clause is present. -/
def process_update_row (q : UpdateQuery) (schema : TableSchema) (line : String) :
    Except ExecError String := do
  let row := splitComma line
  let should_update ← match q.where_clause with
    | some w => evaluate_where_clause w schema row
    | none => pure true
  let row2 ← if should_update then apply_assignments q.assignments schema row
             else pure row
  .ok (joinComma row2)

/-- The UPDATE scan loop: each processed row is appended to the temporary file;
an error aborts with the file system as it stands. -/
def update_rows_loop (q : UpdateQuery) (schema : TableSchema) :
    List String → FS → Except (ExecError × FS) FS
  | [], fs => .ok fs
  | line :: rest, fs =>
    match process_update_row q schema line with
    | .error e => .error (e, fs)
    | .ok out => update_rows_loop q schema rest { fs with temp := fs.temp ++ [out] }

/-- `execute_update`: validate assignment columns, stream header and rows into
the temporary file, and atomically rename it over the table at the very end. -/
def execute_update (q : UpdateQuery) (fs : FS) : Except (ExecError × FS) FS :=
  let schema := read_table_schema fs.table
  match q.assignments.find? (fun a => (mapFind schema.columns a.column).isNone) with
  | some a => .error (.sql (.invalidColumn ("Column " ++ a.column ++ " does not exist")), fs)
  | none =>
    match fs.table with
    | [] => .error (.sql (.invalidTable "Table is empty or corrupted"),
                    { fs with temp := [] })
    | header :: rows =>
      match update_rows_loop q schema rows { fs with temp := [header] } with
      | .error (e, fs2) => .error (e, fs2)
      | .ok fs2 => .ok { table := fs2.temp, temp := [] }

/-- One row of the DELETE scan: `should_delete` defaults to `false` and is only
overwritten by the WHERE clause's verdict when a WHERE clause is present. -/
def process_delete_row (q : DeleteQuery) (schema : TableSchema) (line : String) :
    Except ExecError Bool :=
  match q.where_clause with
  | some w => evaluate_where_clause w schema (splitComma line)
  | none => .ok false

/-- The DELETE scan loop: rows not marked for deletion are appended to the
temporary file. -/
def delete_rows_loop (q : DeleteQuery) (schema : TableSchema) :
    List String → FS → Except (ExecError × FS) FS
  | [], fs => .ok fs
  | line :: rest, fs =>
    match process_delete_row q schema line with
    | .error e => .error (e, fs)
    | .ok true => delete_rows_loop q schema rest fs
    | .ok false => delete_rows_loop q schema rest
        { fs with temp := fs.temp ++ [joinComma (splitComma line)] }

/-- `execute_delete`: stream header and retained rows into the temporary file,
then atomically rename it over the table. -/
def execute_delete (q : DeleteQuery) (fs : FS) : Except (ExecError × FS) FS :=
  let schema := read_table_schema fs.table
  match fs.table with
  | [] => .error (.sql (.invalidTable "Table is empty or corrupted"),
                  { fs with temp := [] })
  | header :: rows =>
    match delete_rows_loop q schema rows { fs with temp := [header] } with
    | .error (e, fs2) => .error (e, fs2)
    | .ok fs2 => .ok { table := fs2.temp, temp := [] }

example : execute_update ⟨"users", [⟨"age", "31"⟩],
      some (.binaryOp (.column "id") "=" (.literal "1"))⟩
    ⟨["id,name,age", "1,Alice,30", "2,Bob,25"], []⟩ =
    .ok ⟨["id,name,age", "1,Alice,31", "2,Bob,25"], []⟩ := by
  simp +decide [execute_update, update_rows_loop, process_update_row,
    read_table_schema, apply_assignments, bind, Except.bind]

example : execute_delete ⟨"users", some (.binaryOp (.column "id") "=" (.literal "2"))⟩
    ⟨["id,name,age", "1,Alice,30", "2,Bob,25"], []⟩ =
    .ok ⟨["id,name,age", "1,Alice,30"], []⟩ := by
  simp +decide [execute_delete, delete_rows_loop, process_delete_row,
    read_table_schema, bind, Except.bind]

/-! ### Supporting lemmas for the claims -/

theorem update_rows_loop_error_table (q : UpdateQuery) (schema : TableSchema)
    (rows : List String) (fs : FS) (e : ExecError) (fs2 : FS)
    (h : update_rows_loop q schema rows fs = .error (e, fs2)) :
    fs2.table = fs.table := by
  induction rows generalizing fs with
  | nil => simp [update_rows_loop] at h
  | cons line rest ih =>
    simp only [update_rows_loop] at h
    split at h
    · simp only [Except.error.injEq, Prod.mk.injEq] at h
      rw [← h.2]
    · have h3 := ih _ h
      simpa using h3

theorem delete_rows_loop_error_table (q : DeleteQuery) (schema : TableSchema)
    (rows : List String) (fs : FS) (e : ExecError) (fs2 : FS)
    (h : delete_rows_loop q schema rows fs = .error (e, fs2)) :
    fs2.table = fs.table := by
  induction rows generalizing fs with
  | nil => simp [delete_rows_loop] at h
  | cons line rest ih =>
    simp only [delete_rows_loop] at h
    split at h
    · simp only [Except.error.injEq, Prod.mk.injEq] at h
      rw [← h.2]
    · have h3 := ih _ h
      simpa using h3
    · have h3 := ih _ h
      simpa using h3

/-! ### C2 -/

/-- C2: whenever UPDATE or DELETE execution aborts with an error — including
errors discovered mid-scan, such as an unknown column met while evaluating the
WHERE clause on some row — the table file's content is unchanged: only the
final rename (reached exclusively on the success path) ever writes to it. -/
theorem c2_error_leaves_table_untouched :
    (∀ (q : UpdateQuery) (fs : FS) (e : ExecError) (fs2 : FS),
       execute_update q fs = .error (e, fs2) → fs2.table = fs.table) ∧
    (∀ (q : DeleteQuery) (fs : FS) (e : ExecError) (fs2 : FS),
       execute_delete q fs = .error (e, fs2) → fs2.table = fs.table) := by
  constructor
  · intro q fs e fs2 h
    simp only [execute_update] at h
    split at h
    · simp only [Except.error.injEq, Prod.mk.injEq] at h
      rw [← h.2]
    · split at h
      · simp only [Except.error.injEq, Prod.mk.injEq] at h
        rw [← h.2]
      · split at h
        · rename_i heq
          simp only [Except.error.injEq, Prod.mk.injEq] at h
          have h3 := update_rows_loop_error_table _ _ _ _ _ _ heq
          rw [← h.2]
          simpa using h3
        · exact absurd h (by simp)
  · intro q fs e fs2 h
    simp only [execute_delete] at h
    split at h
    · simp only [Except.error.injEq, Prod.mk.injEq] at h
      rw [← h.2]
    · split at h
      · rename_i heq
        simp only [Except.error.injEq, Prod.mk.injEq] at h
        have h3 := delete_rows_loop_error_table _ _ _ _ _ _ heq
        rw [← h.2]
        simpa using h3
      · exact absurd h (by simp)

/-- C2 witness: an UPDATE whose WHERE clause names an unknown column fails
while scanning the first row, and the table content is exactly the original. -/
theorem c2_witness :
    execute_update ⟨"users", [⟨"name", "X"⟩],
        some (.binaryOp (.column "zzz") "=" (.literal "1"))⟩
      ⟨["id,name", "1,Alice", "2,Bob"], []⟩ =
      .error (.sql (.invalidColumn "Column zzz does not exist"),
              ⟨["id,name", "1,Alice", "2,Bob"], ["id,name"]⟩) ∧
    (⟨["id,name", "1,Alice", "2,Bob"], ["id,name"]⟩ : FS).table =
      (⟨["id,name", "1,Alice", "2,Bob"], []⟩ : FS).table := by
  constructor
  · decide
  · exact c2_error_leaves_table_untouched.1
      ⟨"users", [⟨"name", "X"⟩], some (.binaryOp (.column "zzz") "=" (.literal "1"))⟩
      ⟨["id,name", "1,Alice", "2,Bob"], []⟩
      (.sql (.invalidColumn "Column zzz does not exist"))
      ⟨["id,name", "1,Alice", "2,Bob"], ["id,name"]⟩
      (by decide)

/-! ### C3 -/

/-- The six comparison operators accepted by `evaluate_where_clause`. -/
def supported_ops : List String := ["=", "<", ">", "<=", ">=", "<>"]

/-- An operand on which `get_value` succeeds: a literal, or a column that
exists in the schema with its ordinal within the row's width. -/
def operand_ok (schema : TableSchema) (row : List String) (e : Expression) : Prop :=
  (∃ s, e = .literal s) ∨
  (∃ c idx, e = .column c ∧ mapFind schema.columns c = some idx ∧ idx < row.length)

theorem get_value_ok_iff (schema : TableSchema) (row : List String) (e : Expression) :
    (∃ v, get_value e schema row = .ok v) ↔ operand_ok schema row e := by
  cases e with
  | literal s =>
    simp [get_value, operand_ok]
  | column c =>
    simp only [get_value, operand_ok]
    cases hf : mapFind schema.columns c with
    | none => simp [hf]
    | some idx =>
      cases hr : row[idx]? with
      | none =>
        have hlen : ¬ idx < row.length := by
          intro hlt
          rw [List.getElem?_eq_getElem hlt] at hr
          cases hr
        simp [hr, hf, hlen]
      | some v =>
        have hlen : idx < row.length := by
          by_contra hge
          rw [List.getElem?_eq_none (by omega)] at hr
          cases hr
        simp [hr, hf, hlen]
  | binaryOp l op r =>
    simp [get_value, operand_ok]

/-- C3 counterexample: `BinaryOp(Literal "a", "=", Literal "a")` is not of the
Column-versus-Literal shape, yet evaluation succeeds with `true` instead of
returning the syntax error the claim requires. -/
theorem c3_counterexample :
    evaluate_where_clause (.binaryOp (.literal "a") "=" (.literal "a")) ⟨[]⟩ [] =
      .ok true ∧
    ∀ msg, evaluate_where_clause (.binaryOp (.literal "a") "=" (.literal "a")) ⟨[]⟩ [] ≠
      .error (.sql (.invalidSyn msg)) := by
  constructor
  · decide
  · intro msg h
    cases h

/-- C3 (amended): evaluation succeeds exactly on a single `BinaryOp` whose two
operands are each a `Column` (existing in the schema, ordinal within the row)
or a `Literal` — including `Literal`/`Literal` and `Column`/`Column`, not only
the Column-versus-Literal shape the claim states — with operator among
`=`, `<`, `>`, `<=`, `>=`, `<>`; the comparison is raw lexicographic text
comparison of the operand values, whatever their shapes; a top-level `Literal`
or `Column` yields the evaluation-time syntax error, a nested `BinaryOp`
operand yields the syntax error "Unsupported expression", an unknown operator
yields the syntax error "Unknown operator", and an unknown column yields an
unknown-column error (operand errors propagate left first). -/
theorem c3_amended_eval_characterization (e : Expression) (schema : TableSchema)
    (row : List String) :
    ((∃ b, evaluate_where_clause e schema row = .ok b) ↔
      (∃ l op r, e = .binaryOp l op r ∧ op ∈ supported_ops ∧
        operand_ok schema row l ∧ operand_ok schema row r)) ∧
    (∀ l op r lv rv, e = .binaryOp l op r →
      get_value l schema row = .ok lv → get_value r schema row = .ok rv →
      evaluate_where_clause e schema row =
        (if op = "=" then .ok (lv == rv)
         else if op = "<" then .ok (strLt lv rv)
         else if op = ">" then .ok (strLt rv lv)
         else if op = "<=" then .ok (strLe lv rv)
         else if op = ">=" then .ok (strLe rv lv)
         else if op = "<>" then .ok (!(lv == rv))
         else .error (.sql (.invalidSyn ("Unknown operator " ++ op))))) ∧
    (∀ s, get_value (.literal s) schema row = .ok s) ∧
    (∀ c idx, mapFind schema.columns c = some idx → idx < row.length →
      get_value (.column c) schema row = .ok (row.getD idx "")) ∧
    (∀ c, mapFind schema.columns c = none →
      get_value (.column c) schema row =
        .error (.sql (.invalidColumn ("Column " ++ c ++ " does not exist")))) ∧
    (∀ l2 op2 r2, get_value (.binaryOp l2 op2 r2) schema row =
      .error (.sql (.invalidSyn "Unsupported expression"))) ∧
    (∀ l op r err, e = .binaryOp l op r →
      get_value l schema row = .error err →
      evaluate_where_clause e schema row = .error err) ∧
    (∀ l op r lv err, e = .binaryOp l op r →
      get_value l schema row = .ok lv → get_value r schema row = .error err →
      evaluate_where_clause e schema row = .error err) ∧
    ((∀ l op r, e ≠ .binaryOp l op r) →
      evaluate_where_clause e schema row =
        .error (.sql (.invalidSyn "Unsupported expression in WHERE clause"))) := by
  refine ⟨?_, ?_, ?_, ?_, ?_, ?_, ?_, ?_, ?_⟩
  · cases e with
    | literal s =>
      simp [evaluate_where_clause]
    | column c =>
      simp [evaluate_where_clause]
    | binaryOp l op r =>
      constructor
      · rintro ⟨b, hb⟩
        cases hl : get_value l schema row with
        | error e2 =>
          simp only [evaluate_where_clause, bind, Except.bind, hl] at hb
          simp at hb
        | ok lv =>
          cases hr : get_value r schema row with
          | error e2 =>
            simp only [evaluate_where_clause, bind, Except.bind, hl, hr] at hb
            simp at hb
          | ok rv =>
            simp only [evaluate_where_clause, bind, Except.bind, hl, hr] at hb
            refine ⟨l, op, r, rfl, ?_, ?_, ?_⟩
            · split at hb
              · simp [supported_ops]
              · simp [supported_ops]
              · simp [supported_ops]
              · simp [supported_ops]
              · simp [supported_ops]
              · simp [supported_ops]
              · exact Except.noConfusion hb
            · exact (get_value_ok_iff schema row l).mp ⟨lv, hl⟩
            · exact (get_value_ok_iff schema row r).mp ⟨rv, hr⟩
      · rintro ⟨l2, op2, r2, heq, hop, hokl, hokr⟩
        injection heq with h1 h2 h3
        subst h1
        subst h2
        subst h3
        obtain ⟨lv, hl⟩ := (get_value_ok_iff schema row _).mpr hokl
        obtain ⟨rv, hr⟩ := (get_value_ok_iff schema row _).mpr hokr
        simp only [evaluate_where_clause, bind, Except.bind, hl, hr]
        simp only [supported_ops, List.mem_cons, List.not_mem_nil, or_false] at hop
        rcases hop with rfl | rfl | rfl | rfl | rfl | rfl
        · exact ⟨lv == rv, rfl⟩
        · exact ⟨strLt lv rv, rfl⟩
        · exact ⟨strLt rv lv, rfl⟩
        · exact ⟨strLe lv rv, rfl⟩
        · exact ⟨strLe rv lv, rfl⟩
        · exact ⟨!(lv == rv), rfl⟩
  · intro l op r lv rv heq hl hr
    subst heq
    simp only [evaluate_where_clause, bind, Except.bind, hl, hr]
    split <;> simp_all
  · intro s
    rfl
  · intro c idx hf hlt
    simp [get_value, hf, List.getElem?_eq_getElem hlt, List.getD_eq_getElem?_getD]
  · intro c hf
    simp [get_value, hf]
  · intro l2 op2 r2
    rfl
  · intro l op r err heq herr
    subst heq
    simp [evaluate_where_clause, bind, Except.bind, herr]
  · intro l op r lv err heq hl herr
    subst heq
    simp [evaluate_where_clause, bind, Except.bind, hl, herr]
  · intro hshape
    cases e with
    | literal s => rfl
    | column c => rfl
    | binaryOp l op r => exact absurd rfl (hshape l op r)

/-- C3 amended witness: a concrete Column-vs-Literal predicate compared as raw
text via the general comparison-semantics conjunct, and a concrete
unknown-column operand whose unknown-column error propagates. -/
theorem c3_amended_witness :
    evaluate_where_clause (.binaryOp (.column "age") "<" (.literal "30"))
      ⟨[("id", 0), ("age", 1)]⟩ ["1", "25"] = .ok (strLt "25" "30") ∧
    evaluate_where_clause (.binaryOp (.column "zzz") "=" (.literal "1"))
      ⟨[("id", 0), ("age", 1)]⟩ ["1", "25"] =
      .error (.sql (.invalidColumn "Column zzz does not exist")) := by
  constructor
  · have h := (c3_amended_eval_characterization
      (.binaryOp (.column "age") "<" (.literal "30"))
      ⟨[("id", 0), ("age", 1)]⟩ ["1", "25"]).2.1
      (.column "age") "<" (.literal "30") "25" "30" rfl (by decide) (by decide)
    rw [h]
    decide
  · have hgv := (c3_amended_eval_characterization
      (.binaryOp (.column "zzz") "=" (.literal "1"))
      ⟨[("id", 0), ("age", 1)]⟩ ["1", "25"]).2.2.2.2.1
      "zzz" (by decide)
    exact (c3_amended_eval_characterization
      (.binaryOp (.column "zzz") "=" (.literal "1"))
      ⟨[("id", 0), ("age", 1)]⟩ ["1", "25"]).2.2.2.2.2.2.1
      (.column "zzz") "=" (.literal "1") _ rfl hgv

/-! ### Success-path characterizations of the UPDATE and DELETE scans -/

theorem update_rows_loop_ok (q : UpdateQuery) (schema : TableSchema)
    (rows : List String) (fs : FS) (fs2 : FS)
    (h : update_rows_loop q schema rows fs = .ok fs2) :
    ∃ outs : List String, outs.length = rows.length ∧
      fs2.temp = fs.temp ++ outs ∧ fs2.table = fs.table ∧
      ∀ i (hi : i < rows.length) (ho : i < outs.length),
        process_update_row q schema rows[i] = .ok outs[i] := by
  induction rows generalizing fs with
  | nil =>
    simp only [update_rows_loop] at h
    cases h
    exact ⟨[], by simp, by simp, by simp, by intro i hi; simp at hi⟩
  | cons line rest ih =>
    simp only [update_rows_loop] at h
    split at h
    · exact Except.noConfusion h
    · rename_i out hout
      obtain ⟨outs, hlen, htemp, htab, hpt⟩ := ih _ h
      refine ⟨out :: outs, by simp [hlen], by simpa using htemp,
        by simpa using htab, ?_⟩
      intro i hi ho
      cases i with
      | zero => simpa using hout
      | succ n =>
        have h2 := hpt n (by simp at hi; omega) (by simp at ho; omega)
        simpa using h2

theorem delete_rows_loop_ok (q : DeleteQuery) (schema : TableSchema)
    (rows : List String) (fs : FS) (fs2 : FS)
    (h : delete_rows_loop q schema rows fs = .ok fs2) :
    ∃ keeps : List Bool, keeps.length = rows.length ∧
      fs2.temp = fs.temp ++
        ((rows.zip keeps).filterMap (fun rk => if rk.2 then none else some rk.1)) ∧
      fs2.table = fs.table ∧
      ∀ i (hi : i < rows.length) (hk : i < keeps.length),
        process_delete_row q schema rows[i] = .ok keeps[i] := by
  induction rows generalizing fs with
  | nil =>
    simp only [delete_rows_loop] at h
    cases h
    exact ⟨[], by simp, by simp, by simp, by intro i hi; simp at hi⟩
  | cons line rest ih =>
    simp only [delete_rows_loop] at h
    split at h
    · exact Except.noConfusion h
    · rename_i hdel
      obtain ⟨keeps, hlen, htemp, htab, hpt⟩ := ih _ h
      refine ⟨true :: keeps, by simp [hlen], by simpa using htemp,
        by simpa using htab, ?_⟩
      intro i hi hk
      cases i with
      | zero => simpa using hdel
      | succ n =>
        have h2 := hpt n (by simp at hi; omega) (by simp at hk; omega)
        simpa using h2
    · rename_i hdel
      obtain ⟨keeps, hlen, htemp, htab, hpt⟩ := ih _ h
      rw [joinComma_splitComma line] at htemp
      refine ⟨false :: keeps, by simp [hlen], by simpa using htemp,
        by simpa using htab, ?_⟩
      intro i hi hk
      cases i with
      | zero => simpa using hdel
      | succ n =>
        have h2 := hpt n (by simp at hi; omega) (by simp at hk; omega)
        simpa using h2

theorem execute_update_ok (q : UpdateQuery) (fs : FS) (fs2 : FS)
    (h : execute_update q fs = .ok fs2) :
    ∃ hdr rows outs, fs.table = hdr :: rows ∧ fs2.table = hdr :: outs ∧
      outs.length = rows.length ∧
      ∀ i (hi : i < rows.length) (ho : i < outs.length),
        process_update_row q (read_table_schema fs.table) rows[i] = .ok outs[i] := by
  simp only [execute_update] at h
  split at h
  · exact Except.noConfusion h
  · split at h
    · exact Except.noConfusion h
    · rename_i hdr rows htab
      split at h
      · exact Except.noConfusion h
      · rename_i fs3 hloop
        obtain ⟨outs, hlen, htemp, _, hpt⟩ := update_rows_loop_ok _ _ _ _ _ hloop
        simp only [Except.ok.injEq] at h
        refine ⟨hdr, rows, outs, htab, ?_, hlen, ?_⟩
        · rw [← h]
          simpa using htemp
        · intro i hi ho
          exact hpt i hi ho

theorem execute_delete_ok (q : DeleteQuery) (fs : FS) (fs2 : FS)
    (h : execute_delete q fs = .ok fs2) :
    ∃ hdr rows keeps, fs.table = hdr :: rows ∧
      (keeps : List Bool).length = rows.length ∧
      fs2.table = hdr ::
        ((rows.zip keeps).filterMap (fun rk => if rk.2 then none else some rk.1)) ∧
      ∀ i (hi : i < rows.length) (hk : i < keeps.length),
        process_delete_row q (read_table_schema fs.table) rows[i] = .ok keeps[i] := by
  simp only [execute_delete] at h
  split at h
  · exact Except.noConfusion h
  · rename_i hdr rows htab
    split at h
    · exact Except.noConfusion h
    · rename_i fs3 hloop
      obtain ⟨keeps, hlen, htemp, _, hpt⟩ := delete_rows_loop_ok _ _ _ _ _ hloop
      simp only [Except.ok.injEq] at h
      refine ⟨hdr, rows, keeps, htab, hlen, ?_, ?_⟩
      · rw [← h]
        simpa using htemp
      · intro i hi hk
        exact hpt i hi hk

/-! ### C1 -/

/-- C1 counterexample: an UPDATE with no WHERE clause applies its assignment to
the (only) data row — the row changes, refuting "changes zero data rows". -/
theorem c1_counterexample :
    execute_update ⟨"users", [⟨"name", "Bob"⟩], none⟩
      ⟨["id,name", "1,Alice"], []⟩ =
      .ok ⟨["id,name", "1,Bob"], []⟩ ∧
    ("1,Bob" : String) ≠ "1,Alice" := by
  constructor
  · decide
  · decide

/-- C1 (amended): for an UPDATE whose where_clause is absent, `should_update`
defaults to `true`, so the assignments are applied to every data row
("update all"), the opposite of the claimed "no row is updated"; header and
row count are preserved. -/
theorem c1_amended_no_where_updates_all (q : UpdateQuery) (fs fs2 : FS)
    (hnone : q.where_clause = none)
    (h : execute_update q fs = .ok fs2) :
    ∃ hdr rows outs, fs.table = hdr :: rows ∧ fs2.table = hdr :: outs ∧
      outs.length = rows.length ∧
      ∀ i (hi : i < rows.length) (ho : i < outs.length),
        ∃ fields, apply_assignments q.assignments (read_table_schema fs.table)
            (splitComma rows[i]) = .ok fields ∧
          outs[i] = joinComma fields := by
  obtain ⟨hdr, rows, outs, htab, htab2, hlen, hpt⟩ := execute_update_ok q fs fs2 h
  refine ⟨hdr, rows, outs, htab, htab2, hlen, ?_⟩
  intro i hi ho
  have hrow := hpt i hi ho
  simp only [process_update_row, hnone, bind, Except.bind, pure, Except.pure] at hrow
  cases happ : apply_assignments q.assignments (read_table_schema fs.table)
      (splitComma rows[i]) with
  | error e2 =>
    rw [happ] at hrow
    exact Except.noConfusion hrow
  | ok fields =>
    rw [happ] at hrow
    simp only [if_true, Except.ok.injEq] at hrow
    first
    | exact ⟨fields, rfl, hrow⟩
    | exact ⟨fields, rfl, hrow.symm⟩

/-- C1 amended witness: concrete no-WHERE UPDATE on a two-row table; both rows
receive the assignment. -/
theorem c1_amended_witness :
    ∃ hdr rows outs,
      (⟨["id,name", "1,Alice"], []⟩ : FS).table = hdr :: rows ∧
      (⟨["id,name", "1,Bob"], []⟩ : FS).table = hdr :: outs ∧
      outs.length = rows.length ∧
      ∀ i (hi : i < rows.length) (ho : i < outs.length),
        ∃ fields, apply_assignments [⟨"name", "Bob"⟩]
            (read_table_schema (⟨["id,name", "1,Alice"], []⟩ : FS).table)
            (splitComma rows[i]) = .ok fields ∧
          outs[i] = joinComma fields :=
  c1_amended_no_where_updates_all ⟨"users", [⟨"name", "Bob"⟩], none⟩
    ⟨["id,name", "1,Alice"], []⟩ ⟨["id,name", "1,Bob"], []⟩ rfl (by decide)

/-! ### C6 -/

/-- C6: for an UPDATE with a present WHERE predicate, every data row on which
the predicate holds has exactly the listed assignments applied (in order, to
the assigned ordinals), every data row on which it does not hold is
byte-identical to the original line, and the header line and the row count are
unchanged. -/
theorem c6_update_with_where (q : UpdateQuery) (w : Expression) (fs fs2 : FS)
    (hw : q.where_clause = some w)
    (h : execute_update q fs = .ok fs2) :
    ∃ hdr rows outs, fs.table = hdr :: rows ∧ fs2.table = hdr :: outs ∧
      outs.length = rows.length ∧
      ∀ i (hi : i < rows.length) (ho : i < outs.length),
        (evaluate_where_clause w (read_table_schema fs.table)
            (splitComma rows[i]) = .ok true →
          ∃ fields, apply_assignments q.assignments (read_table_schema fs.table)
              (splitComma rows[i]) = .ok fields ∧
            outs[i] = joinComma fields) ∧
        (evaluate_where_clause w (read_table_schema fs.table)
            (splitComma rows[i]) = .ok false →
          outs[i] = rows[i]) := by
  obtain ⟨hdr, rows, outs, htab, htab2, hlen, hpt⟩ := execute_update_ok q fs fs2 h
  refine ⟨hdr, rows, outs, htab, htab2, hlen, ?_⟩
  intro i hi ho
  have hrow := hpt i hi ho
  cases heval : evaluate_where_clause w (read_table_schema fs.table)
      (splitComma rows[i]) with
  | error e2 =>
    constructor
    · intro hevT
      exact Except.noConfusion hevT
    · intro hevF
      exact Except.noConfusion hevF
  | ok b =>
    simp only [process_update_row, hw, bind, Except.bind, heval] at hrow
    cases b with
    | true =>
      simp only [if_true] at hrow
      constructor
      · intro _
        cases happ : apply_assignments q.assignments (read_table_schema fs.table)
            (splitComma rows[i]) with
        | error e2 =>
          rw [happ] at hrow
          exact Except.noConfusion hrow
        | ok fields =>
          rw [happ] at hrow
          simp only [Except.ok.injEq] at hrow
          first
          | exact ⟨fields, rfl, hrow⟩
          | exact ⟨fields, rfl, hrow.symm⟩
      · intro hevF
        simp at hevF
    | false =>
      simp only [if_neg, Bool.false_eq_true, not_false_iff, pure, Except.pure,
        Except.ok.injEq] at hrow
      constructor
      · intro hevT
        simp at hevT
      · intro _
        have hjs := joinComma_splitComma rows[i]
        rw [← hrow, hjs]

/-- C6 witness: a concrete WHERE-guarded UPDATE; the matching row gets the
assignment, the non-matching row is unchanged. -/
theorem c6_witness :
    ∃ hdr rows outs,
      (⟨["id,name,age", "1,Alice,30", "2,Bob,25"], []⟩ : FS).table = hdr :: rows ∧
      (⟨["id,name,age", "1,Alice,31", "2,Bob,25"], []⟩ : FS).table = hdr :: outs ∧
      outs.length = rows.length ∧
      ∀ i (hi : i < rows.length) (ho : i < outs.length),
        (evaluate_where_clause (.binaryOp (.column "id") "=" (.literal "1"))
            (read_table_schema (⟨["id,name,age", "1,Alice,30", "2,Bob,25"], []⟩ : FS).table)
            (splitComma rows[i]) = .ok true →
          ∃ fields, apply_assignments [⟨"age", "31"⟩]
              (read_table_schema (⟨["id,name,age", "1,Alice,30", "2,Bob,25"], []⟩ : FS).table)
              (splitComma rows[i]) = .ok fields ∧
            outs[i] = joinComma fields) ∧
        (evaluate_where_clause (.binaryOp (.column "id") "=" (.literal "1"))
            (read_table_schema (⟨["id,name,age", "1,Alice,30", "2,Bob,25"], []⟩ : FS).table)
            (splitComma rows[i]) = .ok false →
          outs[i] = rows[i]) :=
  c6_update_with_where
    ⟨"users", [⟨"age", "31"⟩], some (.binaryOp (.column "id") "=" (.literal "1"))⟩
    (.binaryOp (.column "id") "=" (.literal "1"))
    ⟨["id,name,age", "1,Alice,30", "2,Bob,25"], []⟩
    ⟨["id,name,age", "1,Alice,31", "2,Bob,25"], []⟩
    rfl (by decide)

/-! ### C5 -/

theorem zip_filterMap_keep_sublist (rows : List String) (keeps : List Bool) :
    ((rows.zip keeps).filterMap
      (fun rk => if rk.2 then none else some rk.1)).Sublist rows := by
  induction rows generalizing keeps with
  | nil => simp
  | cons r rest ih =>
    cases keeps with
    | nil => simp
    | cons k ks =>
      cases k with
      | false => simpa using List.Sublist.cons₂ r (ih ks)
      | true => simpa using List.Sublist.cons r (ih ks)

theorem keep_false_mem (rows : List String) (keeps : List Bool) (i : Nat)
    (hi : i < rows.length) (hk : i < keeps.length) (hfalse : keeps[i] = false) :
    rows[i] ∈ (rows.zip keeps).filterMap
      (fun rk => if rk.2 then none else some rk.1) := by
  induction rows generalizing keeps i with
  | nil => simp at hi
  | cons r rest ih =>
    cases keeps with
    | nil => simp at hk
    | cons k ks =>
      cases i with
      | zero =>
        simp only [List.getElem_cons_zero] at hfalse ⊢
        rw [hfalse] at *
        simp [hfalse]
      | succ n =>
        simp only [List.getElem_cons_succ] at hfalse ⊢
        have hmem := ih ks n (by simp at hi; omega) (by simp at hk; omega) hfalse
        cases k <;> simp [hmem]

theorem all_keep_false_eq (rows : List String) (keeps : List Bool)
    (hlen : keeps.length = rows.length)
    (hall : ∀ i (hk : i < keeps.length), keeps[i] = false) :
    (rows.zip keeps).filterMap (fun rk => if rk.2 then none else some rk.1) = rows := by
  induction rows generalizing keeps with
  | nil => simp
  | cons r rest ih =>
    cases keeps with
    | nil => simp at hlen
    | cons k ks =>
      have h0 := hall 0 (by simp)
      simp only [List.getElem_cons_zero] at h0
      rw [h0]
      simp only [List.zip_cons_cons, List.filterMap_cons]
      simp only [if_neg, Bool.false_eq_true, not_false_iff]
      rw [ih ks (by simp at hlen; omega)
        (fun i hk => by
          have := hall (i + 1) (by simp; omega)
          simpa using this)]

/-- C5: on a successful DELETE, the header is preserved, the retained rows are
a sublist of the original data rows (original relative order), a row value is
absent from the output only when a WHERE predicate is present and holds on it,
and a DELETE without WHERE clause removes zero rows. -/
theorem c5_delete_semantics (q : DeleteQuery) (fs fs2 : FS)
    (h : execute_delete q fs = .ok fs2) :
    ∃ hdr rows kept, fs.table = hdr :: rows ∧ fs2.table = hdr :: kept ∧
      kept.Sublist rows ∧
      (∀ r ∈ rows, r ∉ kept → ∃ w, q.where_clause = some w ∧
        evaluate_where_clause w (read_table_schema fs.table)
          (splitComma r) = .ok true) ∧
      (q.where_clause = none → kept = rows) := by
  obtain ⟨hdr, rows, keeps, htab, hlen, htab2, hpt⟩ := execute_delete_ok q fs fs2 h
  refine ⟨hdr, rows,
    (rows.zip keeps).filterMap (fun rk => if rk.2 then none else some rk.1),
    htab, htab2, zip_filterMap_keep_sublist rows keeps, ?_, ?_⟩
  · intro r hr hnot
    obtain ⟨i, hi, hieq⟩ := List.getElem_of_mem hr
    have hik : i < keeps.length := by omega
    cases hkb : keeps[i] with
    | false =>
      have hmem := keep_false_mem rows keeps i hi (by omega) hkb
      rw [hieq] at hmem
      exact absurd hmem hnot
    | true =>
      have hrow := hpt i hi (by omega)
      rw [hkb] at hrow
      cases hwc : q.where_clause with
      | none =>
        simp only [process_delete_row, hwc] at hrow
        exact absurd hrow (by simp)
      | some w =>
        simp only [process_delete_row, hwc] at hrow
        rw [hieq] at hrow
        exact ⟨w, rfl, hrow⟩
  · intro hnone
    apply all_keep_false_eq rows keeps hlen
    intro i hk
    have hrow := hpt i (by omega) hk
    simp only [process_delete_row, hnone] at hrow
    simp only [Except.ok.injEq] at hrow
    exact hrow.symm

/-- C5 witness: concrete DELETE with a predicate matching the second row; the
first row is retained in place, the matching row is gone. -/
theorem c5_witness :
    ∃ hdr rows kept,
      (⟨["id,name,age", "1,Alice,30", "2,Bob,25"], []⟩ : FS).table = hdr :: rows ∧
      (⟨["id,name,age", "1,Alice,30"], []⟩ : FS).table = hdr :: kept ∧
      kept.Sublist rows ∧
      (∀ r ∈ rows, r ∉ kept → ∃ w,
        (some (Expression.binaryOp (.column "id") "=" (.literal "2")) :
          Option Expression) = some w ∧
        evaluate_where_clause w
          (read_table_schema (⟨["id,name,age", "1,Alice,30", "2,Bob,25"], []⟩ : FS).table)
          (splitComma r) = .ok true) ∧
      ((some (Expression.binaryOp (.column "id") "=" (.literal "2")) :
          Option Expression) = none → kept = rows) :=
  c5_delete_semantics
    ⟨"users", some (.binaryOp (.column "id") "=" (.literal "2"))⟩
    ⟨["id,name,age", "1,Alice,30", "2,Bob,25"], []⟩
    ⟨["id,name,age", "1,Alice,30"], []⟩
    (by decide)

/-! ### C4 -/

/-- C4 counterexample: a data row narrower than the schema aborts the scan with
a Rust index panic (modelled as `indexOutOfBounds`) when a selected ordinal is
projected — the operation does not complete with mismatched output, contrary to
the claim. -/
theorem c4_counterexample :
    execute_select ⟨["b"], "t", none, none⟩ ["a,b", "x"] =
      .error .indexOutOfBounds := by decide

/-- C4 (amended): execution never validates data-row widths against the schema.
Projection and column lookup read whatever field sits at the ordinal: rows
wider than the schema (or narrower, as long as every used ordinal is still
within the row) complete and propagate the mismatched projection.  But when a
used ordinal is at or beyond the row's width, the Rust indexing
`row_values[idx]` panics and aborts the program instead of completing. -/
theorem c4_amended_width_mismatch :
    (∀ (sel : List Nat) (row : List String),
      (∀ idx ∈ sel, idx < row.length) →
      project_row sel row = .ok (sel.map (fun idx => row.getD idx ""))) ∧
    (∀ (sel : List Nat) (row : List String),
      (∃ idx ∈ sel, row.length ≤ idx) →
      project_row sel row = .error .indexOutOfBounds) ∧
    (∀ (c : String) (schema : TableSchema) (row : List String) (idx : Nat),
      mapFind schema.columns c = some idx →
      (idx < row.length → get_value (.column c) schema row = .ok (row.getD idx "")) ∧
      (row.length ≤ idx →
        get_value (.column c) schema row = .error .indexOutOfBounds)) ∧
    (∀ (q : SelectQuery) (schema : TableSchema) (sel : List Nat)
       (lines : List String),
      q.where_clause = none →
      (∀ l ∈ lines, ∀ idx ∈ sel, idx < (splitComma l).length) →
      gather_rows q schema sel lines =
        .ok (lines.map (fun l => sel.map (fun idx => (splitComma l).getD idx "")))) := by
  have hproj : ∀ (sel : List Nat) (row : List String),
      (∀ idx ∈ sel, idx < row.length) →
      project_row sel row = .ok (sel.map (fun idx => row.getD idx "")) := by
    intro sel row hin
    induction sel with
    | nil => rfl
    | cons i0 rest ih =>
      have h0 : i0 < row.length := hin i0 (by simp)
      simp only [project_row] at ih ⊢
      rw [List.mapM_cons]
      simp only [List.getElem?_eq_getElem h0, bind, Except.bind,
        ih (fun idx hidx => hin idx (by simp [hidx])), pure, Except.pure,
        List.map_cons]
      simp [List.getD_eq_getElem?_getD, List.getElem?_eq_getElem h0]
  refine ⟨hproj, ?_, ?_, ?_⟩
  · intro sel row hbad
    induction sel with
    | nil => simp at hbad
    | cons i0 rest ih =>
      simp only [project_row] at ih ⊢
      rw [List.mapM_cons]
      rcases hbad with ⟨idx, hmem, hge⟩
      rcases List.mem_cons.mp hmem with rfl | hmem2
      · rw [List.getElem?_eq_none hge]
        rfl
      · cases h0 : row[i0]? with
        | none => rfl
        | some v =>
          have := ih ⟨idx, hmem2, hge⟩
          simp only [bind, Except.bind, this]
  · intro c schema row idx hf
    constructor
    · intro hlt
      simp [get_value, hf, List.getElem?_eq_getElem hlt,
        List.getD_eq_getElem?_getD]
    · intro hge
      simp [get_value, hf, List.getElem?_eq_none hge]
  · intro q schema sel lines hnone hin
    induction lines with
    | nil => rfl
    | cons l rest ih =>
      simp only [gather_rows, hnone, pure, Except.pure, bind, Except.bind]
      have hp := hproj sel (splitComma l) (hin l (by simp))
      simp only [if_true, hp]
      rw [ih (fun l2 hl2 idx hidx => hin l2 (by simp [hl2]) idx hidx)]
      simp

/-- C4 amended witness: with schema width 2 and the single data row of width 1,
selecting ordinal 0 completes (no width validation) while selecting ordinal 1
aborts with the index panic. -/
theorem c4_amended_witness :
    project_row [0] ["x"] = .ok ["x"] ∧
    project_row [1] ["x"] = .error .indexOutOfBounds := by
  constructor
  · have h := c4_amended_width_mismatch.1 [0] ["x"] (by decide)
    simpa using h
  · exact c4_amended_width_mismatch.2.1 [1] ["x"] ⟨1, by decide, by decide⟩

/-! ### C7 -/

theorem position_of_eq_none_of_not_mem {sel : List Nat} {oidx : Nat}
    (h : oidx ∉ sel) : position_of oidx sel = none := by
  induction sel with
  | nil => rfl
  | cons a rest ih =>
    have ha : ¬ a = oidx := fun hc => h (by simp [hc])
    have hrest : oidx ∉ rest := fun hc => h (by simp [hc])
    simp [position_of, ha, ih hrest]

/-- C7: with an ORDER BY clause, a column absent from the schema or not among
the selected columns yields an unknown-column error; otherwise the output is
sorted by lexicographic text comparison of that projected column — ascending or
descending per the clause — and the sort is stable: for every key value, the
subsequence of rows carrying that key is exactly as in the unsorted results,
and the output is a permutation of the input. -/
theorem c7_order_by (results : List (List String)) (sel : List Nat)
    (schema : TableSchema) (ob : OrderBy) :
    (mapFind schema.columns ob.column = none →
      ∃ msg, sort_results results sel schema ob = .error (.sql (.invalidColumn msg))) ∧
    (∀ oidx, mapFind schema.columns ob.column = some oidx → oidx ∉ sel →
      ∃ msg, sort_results results sel schema ob = .error (.sql (.invalidColumn msg))) ∧
    (∀ out, sort_results results sel schema ob = .ok out →
      ∃ oidx pos, mapFind schema.columns ob.column = some oidx ∧
        position_of oidx sel = some pos ∧
        (ob.ascending = true →
          out.Pairwise (fun a b => strLe (a.getD pos "") (b.getD pos ""))) ∧
        (ob.ascending = false →
          out.Pairwise (fun a b => strLe (b.getD pos "") (a.getD pos ""))) ∧
        (∀ k, out.filter (fun r => r.getD pos "" == k) =
              results.filter (fun r => r.getD pos "" == k)) ∧
        out.Perm results) := by
  refine ⟨?_, ?_, ?_⟩
  · intro hnone
    simp only [sort_results, hnone]
    exact ⟨_, rfl⟩
  · intro oidx hf hnot
    simp only [sort_results, hf, position_of_eq_none_of_not_mem hnot]
    exact ⟨_, rfl⟩
  · intro out hok
    simp only [sort_results] at hok
    split at hok
    · exact Except.noConfusion hok
    · rename_i oidx hf
      split at hok
      · exact Except.noConfusion hok
      · rename_i pos hpos
        refine ⟨oidx, pos, hf, hpos, ?_⟩
        split at hok
        · rename_i hasc
          simp only [Except.ok.injEq] at hok
          subst hok
          refine ⟨?_, ?_, ?_, ?_⟩
          · intro _
            exact pairwise_sortByStable
              (fun a b => strLe (a.getD pos "") (b.getD pos ""))
              (fun a b => strLe_total _ _)
              (fun a b c hab hbc => by exact strLe_trans hab hbc) results
          · intro hfalse
            rw [hasc] at hfalse
            exact Bool.noConfusion hfalse
          · intro k
            apply filter_sortByStable
            intro a b ha hb
            have ha2 : a.getD pos "" = k := by simpa using ha
            have hb2 : b.getD pos "" = k := by simpa using hb
            rw [ha2, hb2]
            simp [strLe, lexLt_irrefl]
          · exact perm_sortByStable _ results
        · rename_i hasc
          simp only [Bool.not_eq_true] at hasc
          simp only [Except.ok.injEq] at hok
          subst hok
          refine ⟨?_, ?_, ?_, ?_⟩
          · intro htrue
            rw [hasc] at htrue
            exact Bool.noConfusion htrue
          · intro _
            exact pairwise_sortByStable
              (fun a b => strLe (b.getD pos "") (a.getD pos ""))
              (fun a b => strLe_total _ _)
              (fun a b c hab hbc => by exact strLe_trans hbc hab) results
          · intro k
            apply filter_sortByStable
            intro a b ha hb
            have ha2 : a.getD pos "" = k := by simpa using ha
            have hb2 : b.getD pos "" = k := by simpa using hb
            rw [ha2, hb2]
            simp [strLe, lexLt_irrefl]
          · exact perm_sortByStable _ results

/-- C7 witness: a concrete ascending sort on a duplicate-key input; the sort
succeeds and the characterization applies. -/
theorem c7_witness :
    ∃ oidx pos, mapFind (⟨[("c", 0)]⟩ : TableSchema).columns "c" = some oidx ∧
      position_of oidx [0] = some pos ∧
      ((⟨"c", true⟩ : OrderBy).ascending = true →
        ([["a"], ["b"], ["b"]] : List (List String)).Pairwise
          (fun a b => strLe (a.getD pos "") (b.getD pos ""))) ∧
      ((⟨"c", true⟩ : OrderBy).ascending = false →
        ([["a"], ["b"], ["b"]] : List (List String)).Pairwise
          (fun a b => strLe (b.getD pos "") (a.getD pos ""))) ∧
      (∀ k, ([["a"], ["b"], ["b"]] : List (List String)).filter
              (fun r => r.getD pos "" == k) =
            ([["b"], ["a"], ["b"]] : List (List String)).filter
              (fun r => r.getD pos "" == k)) ∧
      ([["a"], ["b"], ["b"]] : List (List String)).Perm [["b"], ["a"], ["b"]] :=
  (c7_order_by [["b"], ["a"], ["b"]] [0] ⟨[("c", 0)]⟩ ⟨"c", true⟩).2.2
    [["a"], ["b"], ["b"]] (by decide)

/-! ### C8 -/

/-- The row built by `execute_insert` (total form): a full-schema-width row of
empty fields, with each named ordinal overwritten by the corresponding literal,
in order. -/
def build_insert_row (schema : TableSchema) (cols : List String)
    (values : List String) : List String :=
  (cols.zip values).foldl
    (fun row cv =>
      match mapFind schema.columns cv.1 with
      | some idx => row.set idx cv.2
      | none => row)
    (List.replicate schema.columns.length "")

theorem build_row_foldlM_ok (schema : TableSchema) (pairs : List (String × String))
    (row : List String)
    (hin : ∀ cv ∈ pairs, ∃ idx, mapFind schema.columns cv.1 = some idx ∧
      idx < row.length) :
    pairs.foldlM
      (fun row cv =>
        match mapFind schema.columns cv.1 with
        | some idx =>
          if idx < row.length then Except.ok (row.set idx cv.2)
          else Except.error ExecError.indexOutOfBounds
        | none => Except.error ExecError.indexOutOfBounds)
      row =
    .ok (pairs.foldl
      (fun row cv =>
        match mapFind schema.columns cv.1 with
        | some idx => row.set idx cv.2
        | none => row)
      row) := by
  induction pairs generalizing row with
  | nil => rfl
  | cons cv rest ih =>
    obtain ⟨idx, hf, hlt⟩ := hin cv (by simp)
    simp only [List.foldlM_cons, List.foldl_cons, hf, if_pos hlt, bind, Except.bind]
    rw [ih (row.set idx cv.2)
      (fun cv2 h2 => by
        obtain ⟨idx2, hf2, hlt2⟩ := hin cv2 (by simp [h2])
        exact ⟨idx2, hf2, by simpa using hlt2⟩)]

theorem build_row_foldlM_oob (schema : TableSchema) (pairs : List (String × String)) :
    ∀ (row : List String),
      (∀ cv ∈ pairs, (mapFind schema.columns cv.1).isSome) →
      (∃ cv ∈ pairs, ∃ idx, mapFind schema.columns cv.1 = some idx ∧
        row.length ≤ idx) →
      pairs.foldlM
        (fun row cv =>
          match mapFind schema.columns cv.1 with
          | some idx =>
            if idx < row.length then Except.ok (row.set idx cv.2)
            else Except.error ExecError.indexOutOfBounds
          | none => Except.error ExecError.indexOutOfBounds)
        row = .error .indexOutOfBounds := by
  induction pairs with
  | nil =>
    intro row _ hbad
    simp at hbad
  | cons cv0 rest ih =>
    intro row hsome hbad
    cases hf : mapFind schema.columns cv0.1 with
    | none =>
      have h2 := hsome cv0 (by simp)
      rw [hf] at h2
      simp at h2
    | some idx0 =>
      simp only [List.foldlM_cons, hf, bind, Except.bind]
      by_cases hlt : idx0 < row.length
      · rw [if_pos hlt]
        apply ih
        · intro cv hcv
          exact hsome cv (by simp [hcv])
        · rcases hbad with ⟨cv, hcvmem, idx, hfi, hge⟩
          rcases List.mem_cons.mp hcvmem with heq | hmem2
          · subst heq
            rw [hf] at hfi
            injection hfi with hh
            omega
          · exact ⟨cv, hmem2, idx, hfi, by simpa using hge⟩
      · rw [if_neg hlt]

theorem foldl_set_length (schema : TableSchema) (pairs : List (String × String)) :
    ∀ row : List String,
      (pairs.foldl
        (fun row cv =>
          match mapFind schema.columns cv.1 with
          | some idx => row.set idx cv.2
          | none => row)
        row).length = row.length := by
  induction pairs with
  | nil => intro row; rfl
  | cons cv rest ih =>
    intro row
    simp only [List.foldl_cons]
    rw [ih]
    cases mapFind schema.columns cv.1 <;> simp

theorem build_insert_row_length (schema : TableSchema) (cols values : List String) :
    (build_insert_row schema cols values).length = schema.columns.length := by
  simp [build_insert_row, foldl_set_length]

theorem foldl_set_unassigned (schema : TableSchema) (pairs : List (String × String))
    (j : Nat) (hnone : ∀ cv ∈ pairs, mapFind schema.columns cv.1 ≠ some j) :
    ∀ row : List String,
      (pairs.foldl
        (fun row cv =>
          match mapFind schema.columns cv.1 with
          | some idx => row.set idx cv.2
          | none => row)
        row).getD j "" = row.getD j "" := by
  induction pairs with
  | nil => intro row; rfl
  | cons cv rest ih =>
    intro row
    simp only [List.foldl_cons]
    rw [ih (fun cv2 h2 => hnone cv2 (by simp [h2]))]
    cases hf : mapFind schema.columns cv.1 with
    | none => rfl
    | some idx =>
      have hne : idx ≠ j := fun hc => hnone cv (by simp) (by rw [hc] at hf; exact hf)
      simp [List.getD_eq_getElem?_getD, List.getElem?_set_ne hne]

theorem getD_replicate_empty (n j : Nat) :
    (List.replicate n ("" : String)).getD j "" = "" := by
  by_cases h : j < n
  · rw [List.getD_eq_getElem?_getD,
      List.getElem?_eq_getElem (by simpa using h)]
    simp
  · rw [List.getD_eq_getElem?_getD, List.getElem?_eq_none (by simpa using h)]
    rfl

theorem gather_rows_append_last (q : SelectQuery) (schema : TableSchema)
    (sel : List Nat) (hnone : q.where_clause = none) (x : String) :
    ∀ (xs : List String) (res : List (List String)),
      gather_rows q schema sel (xs ++ [x]) = .ok res →
      ∃ res1 proj, res = res1 ++ [proj] ∧
        project_row sel (splitComma x) = .ok proj := by
  intro xs
  induction xs with
  | nil =>
    intro res h
    simp only [List.nil_append, gather_rows, hnone, pure, Except.pure, bind,
      Except.bind, if_true] at h
    cases hp : project_row sel (splitComma x) with
    | error e => rw [hp] at h; exact Except.noConfusion h
    | ok proj =>
      rw [hp] at h
      simp only [gather_rows, Except.ok.injEq] at h
      exact ⟨[], proj, by simp [← h], rfl⟩
  | cons x0 rest ih =>
    intro res h
    simp only [List.cons_append, gather_rows, hnone, pure, Except.pure, bind,
      Except.bind, if_true, List.append_eq] at h
    cases hp : project_row sel (splitComma x0) with
    | error e => rw [hp] at h; exact Except.noConfusion h
    | ok proj0 =>
      rw [hp] at h
      cases hg : gather_rows q schema sel (rest ++ [x]) with
      | error e => rw [hg] at h; exact Except.noConfusion h
      | ok res2 =>
        rw [hg] at h
        simp only [Except.ok.injEq] at h
        obtain ⟨res1, proj, hres2, hproj⟩ := ih res2 hg
        exact ⟨proj0 :: res1, proj, by simp [← h, hres2], hproj⟩

theorem output_results_ok_shape (sel : List Nat) (schema : TableSchema)
    (results : List (List String)) (out : List String)
    (h : output_results sel schema results = .ok out) :
    ∃ hdrs, out = joinComma hdrs :: results.map joinComma := by
  simp only [output_results, bind, Except.bind] at h
  cases hm : sel.mapM (fun idx =>
      match schema.columns.find? (fun p => p.2 = idx) with
      | some p => Except.ok p.1
      | none => Except.error ExecError.indexOutOfBounds) with
  | error e => rw [hm] at h; exact Except.noConfusion h
  | ok hdrs =>
    rw [hm] at h
    simp only [pure, Except.pure, Except.ok.injEq] at h
    exact ⟨hdrs, h.symm⟩

/-- C8 counterexample: with the duplicate-name header `a,a`, the schema map
collapses to the single entry `a ↦ 1` while its width is 1, so the named
column exists and the value count matches — the claim's "otherwise" case — yet
`new_row[1] = val` is an out-of-bounds index and the program aborts instead of
appending the row. -/
theorem c8_counterexample :
    (∀ c ∈ insert_columns ⟨"t", ["a"], ["x"]⟩ (read_table_schema ["a,a", "1,2"]),
      (mapFind (read_table_schema ["a,a", "1,2"]).columns c).isSome) ∧
    (insert_columns ⟨"t", ["a"], ["x"]⟩ (read_table_schema ["a,a", "1,2"])).length =
      (["x"] : List String).length ∧
    execute_insert ⟨"t", ["a"], ["x"]⟩ ["a,a", "1,2"] =
      .error .indexOutOfBounds := by
  refine ⟨by decide, by decide, by decide⟩

/-- C8 (amended): INSERT validates the named columns (unknown-column error on a
miss), then the value count (syntax error on mismatch); then, provided every
named ordinal is within the schema map's width, it appends — at the end of the
file — one full-schema-width row whose unassigned ordinals are empty text and
whose named ordinals carry the supplied literals in order, and a subsequent
`SELECT *` that succeeds surfaces the projection of that appended row as its
last output line; but when some named ordinal is at or beyond the schema map's
width (possible exactly because duplicate-name headers shrink the column map),
the `new_row[idx]` index panics and the program aborts instead of appending. -/
theorem c8_insert (q : InsertQuery) (lines : List String) :
    ((∃ c ∈ insert_columns q (read_table_schema lines),
        mapFind (read_table_schema lines).columns c = none) →
      ∃ msg, execute_insert q lines = .error (.sql (.invalidColumn msg))) ∧
    ((∀ c ∈ insert_columns q (read_table_schema lines),
        (mapFind (read_table_schema lines).columns c).isSome) →
      (insert_columns q (read_table_schema lines)).length ≠ q.values.length →
      execute_insert q lines =
        .error (.sql (.invalidSyn "Number of columns and values do not match"))) ∧
    ((∀ c ∈ insert_columns q (read_table_schema lines),
        ∃ idx, mapFind (read_table_schema lines).columns c = some idx ∧
          idx < (read_table_schema lines).columns.length) →
      (insert_columns q (read_table_schema lines)).length = q.values.length →
      execute_insert q lines = .ok (lines ++
        [joinComma (build_insert_row (read_table_schema lines)
          (insert_columns q (read_table_schema lines)) q.values)])) ∧
    ((build_insert_row (read_table_schema lines)
        (insert_columns q (read_table_schema lines)) q.values).length =
      (read_table_schema lines).columns.length ∧
     ∀ j, (∀ c ∈ insert_columns q (read_table_schema lines),
        mapFind (read_table_schema lines).columns c ≠ some j) →
      (build_insert_row (read_table_schema lines)
        (insert_columns q (read_table_schema lines)) q.values).getD j "" = "") ∧
    (∀ (t : String) (out : List String),
      lines ≠ [] →
      execute_select ⟨["*"], t, none, none⟩
        (lines ++ [joinComma (build_insert_row (read_table_schema lines)
          (insert_columns q (read_table_schema lines)) q.values)]) = .ok out →
      ∃ proj sel,
        project_row sel (splitComma (joinComma (build_insert_row
          (read_table_schema lines)
          (insert_columns q (read_table_schema lines)) q.values))) = .ok proj ∧
        get_selected_indices ⟨["*"], t, none, none⟩
          (read_table_schema (lines ++ [joinComma (build_insert_row
            (read_table_schema lines)
            (insert_columns q (read_table_schema lines)) q.values)])) = .ok sel ∧
        out.getLast? = some (joinComma proj)) ∧
    ((∀ c ∈ insert_columns q (read_table_schema lines),
        (mapFind (read_table_schema lines).columns c).isSome) →
      (insert_columns q (read_table_schema lines)).length = q.values.length →
      (∃ cv ∈ (insert_columns q (read_table_schema lines)).zip q.values,
        ∃ idx, mapFind (read_table_schema lines).columns cv.1 = some idx ∧
          (read_table_schema lines).columns.length ≤ idx) →
      execute_insert q lines = .error .indexOutOfBounds) := by
  refine ⟨?_, ?_, ?_, ⟨build_insert_row_length _ _ _, ?_⟩, ?_, ?_⟩
  · rintro ⟨c, hc, hcnone⟩
    simp only [execute_insert, bind, Except.bind]
    cases hfind : (insert_columns q (read_table_schema lines)).find?
        (fun c => (mapFind (read_table_schema lines).columns c).isNone) with
    | none =>
      have h2 := List.find?_eq_none.mp hfind c hc
      simp [hcnone] at h2
    | some c2 =>
      exact ⟨_, rfl⟩
  · intro hall hne
    simp only [execute_insert, bind, Except.bind]
    have hfind : (insert_columns q (read_table_schema lines)).find?
        (fun c => (mapFind (read_table_schema lines).columns c).isNone) = none := by
      apply List.find?_eq_none.mpr
      intro c hc
      have h2 := hall c hc
      cases hopt : mapFind (read_table_schema lines).columns c with
      | none =>
        rw [hopt] at h2
        simp at h2
      | some v => simp [hopt]
    rw [hfind, if_pos hne]
  · intro hall hlen
    simp only [execute_insert, bind, Except.bind]
    have hfind : (insert_columns q (read_table_schema lines)).find?
        (fun c => (mapFind (read_table_schema lines).columns c).isNone) = none := by
      apply List.find?_eq_none.mpr
      intro c hc
      obtain ⟨idx, hf, _⟩ := hall c hc
      simp [hf]
    rw [hfind, if_neg (by omega)]
    rw [build_row_foldlM_ok (read_table_schema lines) _ _
      (fun cv hcv => by
        obtain ⟨hc1, _⟩ := List.of_mem_zip hcv
        obtain ⟨idx, hf, hlt⟩ := hall cv.1 hc1
        exact ⟨idx, hf, by simpa using hlt⟩)]
    rfl
  · intro j hnone
    simp only [build_insert_row]
    rw [foldl_set_unassigned (read_table_schema lines) _ j
      (fun cv hcv => hnone cv.1 (List.of_mem_zip hcv).1)]
    exact getD_replicate_empty _ _
  · intro t out hne hsel
    simp only [execute_select, bind, Except.bind] at hsel
    have hdrop : (lines ++ [joinComma (build_insert_row (read_table_schema lines)
        (insert_columns q (read_table_schema lines)) q.values)]).drop 1 =
        lines.drop 1 ++ [joinComma (build_insert_row (read_table_schema lines)
          (insert_columns q (read_table_schema lines)) q.values)] := by
      cases lines with
      | nil => exact absurd rfl hne
      | cons a as => simp
    rw [hdrop] at hsel
    split at hsel
    · exact Except.noConfusion hsel
    · rename_i sel0 hseleq
      split at hsel
      · exact Except.noConfusion hsel
      · rename_i res hg
        obtain ⟨res1, proj, hres, hproj⟩ :=
          gather_rows_append_last _ _ _ rfl _ _ _ hg
        obtain ⟨hdrs, hout⟩ := output_results_ok_shape _ _ _ _ hsel
        refine ⟨proj, sel0, hproj, hseleq, ?_⟩
        rw [hout, hres]
        simp only [List.map_append, List.map_cons, List.map_nil]
        rw [show joinComma hdrs :: (res1.map joinComma ++ [joinComma proj]) =
          (joinComma hdrs :: res1.map joinComma) ++ [joinComma proj] by simp]
        exact List.getLast?_concat _

  · intro hsome hlen hbad
    simp only [execute_insert, bind, Except.bind]
    have hfind : (insert_columns q (read_table_schema lines)).find?
        (fun c => (mapFind (read_table_schema lines).columns c).isNone) = none := by
      apply List.find?_eq_none.mpr
      intro c hc
      have h2 := hsome c hc
      cases hopt : mapFind (read_table_schema lines).columns c with
      | none =>
        rw [hopt] at h2
        simp at h2
      | some v => simp [hopt]
    rw [hfind, if_neg (by omega)]
    rw [build_row_foldlM_oob (read_table_schema lines) _ _
      (fun cv hcv => hsome cv.1 (List.of_mem_zip hcv).1)
      (by
        rcases hbad with ⟨cv, hcvmem, idx, hfi, hge⟩
        exact ⟨cv, hcvmem, idx, hfi, by simpa using hge⟩)]

/-- C8 witness: the spec's own example — `INSERT INTO users (id,name) VALUES
(3,'Carol')` on header `id,name,age` appends `3,Carol,` (empty age). -/
theorem c8_witness :
    execute_insert ⟨"users", ["id", "name"], ["3", "Carol"]⟩
      ["id,name,age", "1,Alice,30"] =
      .ok ["id,name,age", "1,Alice,30", "3,Carol,"] := by
  have h := (c8_insert ⟨"users", ["id", "name"], ["3", "Carol"]⟩
    ["id,name,age", "1,Alice,30"]).2.2.1
    (by decide) (by decide)
  rw [h]
  decide

/-! ### C9 -/

/-- C9: `parse_expression` consumes exactly one column-operator-literal
predicate (three tokens, none of them a keyword, so AND/OR are never consumed);
if the token right after the parsed WHERE expression is the keyword AND or OR,
every statement parser's continuation fails the trailing semicolon-or-end
check with a syntax error (and, for the fixed-prefix DELETE grammar, the whole
`parse` fails), returning no partial result. -/
theorem c9_where_and_or (ts : List Token) (i : Nat) (e : Expression) (j : Nat)
    (w : String)
    (hpe : parse_expression ts i = .ok (e, j))
    (hw : w = "AND" ∨ w = "OR")
    (hj : ts[j]? = some (.keyword w)) :
    j = i + 3 ∧
    (∀ k, i ≤ k → k < j → ∀ s, ts[k]? ≠ some (.keyword s)) ∧
    (∀ cols table wc, parse_select_after_where ts cols table wc j =
      .error (.invalidSyn "Expected semicolon at the end of query")) ∧
    (∀ table asg wc, parse_update_after_where ts table asg wc j =
      .error (.invalidSyn "Expected semicolon at the end of query")) ∧
    (∀ table wc, parse_delete_after_where ts table wc j =
      .error (.invalidSyn "Expected semicolon at the end of query")) ∧
    (ts[0]? = some (.keyword "DELETE") → ts[1]? = some (.keyword "FROM") →
      (∃ t, ts[2]? = some (.identifier t)) → ts[3]? = some (.keyword "WHERE") →
      i = 4 →
      parse ts = .error (.invalidSyn "Expected semicolon at the end of query")) := by
  have hword : w ≠ "ORDER" := by
    rcases hw with rfl | rfl <;> decide
  simp only [parse_expression] at hpe
  split at hpe
  case h_2 => exact Except.noConfusion hpe
  case h_1 name h1 =>
    split at hpe
    case h_2 => exact Except.noConfusion hpe
    case h_1 op h2 =>
      split at hpe
      case h_2 => exact Except.noConfusion hpe
      case h_1 v h3 =>
        simp only [Except.ok.injEq, Prod.mk.injEq] at hpe
        have hj3 : j = i + 3 := hpe.2.symm
        subst hj3
        have hend : expect_end ts (i + 3) =
            .error (.invalidSyn "Expected semicolon at the end of query") := by
          simp only [expect_end, hj]
        have hsel : ∀ cols table wc, parse_select_after_where ts cols table wc (i + 3) =
            .error (.invalidSyn "Expected semicolon at the end of query") := by
          intro cols table wc
          simp [parse_select_after_where, parse_order_opt, hj, hword, hend]
        have hupd : ∀ table asg wc, parse_update_after_where ts table asg wc (i + 3) =
            .error (.invalidSyn "Expected semicolon at the end of query") := by
          intro table asg wc
          simp only [parse_update_after_where, hend]
        have hdel : ∀ table wc, parse_delete_after_where ts table wc (i + 3) =
            .error (.invalidSyn "Expected semicolon at the end of query") := by
          intro table wc
          simp only [parse_delete_after_where, hend]
        refine ⟨rfl, ?_, hsel, hupd, hdel, ?_⟩
        · intro k hk1 hk2 s
          have : k = i ∨ k = i + 1 ∨ k = i + 2 := by omega
          rcases this with rfl | rfl | rfl
          · rw [h1]; simp
          · rw [h2]; simp
          · rw [h3]; simp
        · intro h0 h1d h2d h3d hi
          obtain ⟨t, h2t⟩ := h2d
          subst hi
          simp only [parse, h0, if_true]
          have hpe2 : parse_expression ts 4 = .ok (.binaryOp (.column name)
              op (.literal v), 7) := by
            simp [parse_expression, h1, h2, h3]
          simp [parse_delete, h1d, h2t, parse_where_opt, h3d, hpe2, hdel t]

/-- C9 witness: `DELETE FROM t WHERE a = 1 AND ...` — the expression parse
consumes exactly `a = 1`, the AND keyword fails the end check, and the whole
parse errors. -/
theorem c9_witness :
    let ts : List Token := [.keyword "DELETE", .keyword "FROM", .identifier "t",
      .keyword "WHERE", .identifier "a", .operator "=", .literal "1",
      .keyword "AND", .identifier "b", .eof]
    (7 : Nat) = 4 + 3 ∧
    (∀ k, 4 ≤ k → k < 7 → ∀ s, ts[k]? ≠ some (.keyword s)) ∧
    (∀ cols table wc, parse_select_after_where ts cols table wc 7 =
      .error (.invalidSyn "Expected semicolon at the end of query")) ∧
    (∀ table asg wc, parse_update_after_where ts table asg wc 7 =
      .error (.invalidSyn "Expected semicolon at the end of query")) ∧
    (∀ table wc, parse_delete_after_where ts table wc 7 =
      .error (.invalidSyn "Expected semicolon at the end of query")) ∧
    (ts[0]? = some (.keyword "DELETE") → ts[1]? = some (.keyword "FROM") →
      (∃ t, ts[2]? = some (.identifier t)) → ts[3]? = some (.keyword "WHERE") →
      (4 : Nat) = 4 →
      parse ts = .error (.invalidSyn "Expected semicolon at the end of query")) :=
  c9_where_and_or
    [.keyword "DELETE", .keyword "FROM", .identifier "t",
      .keyword "WHERE", .identifier "a", .operator "=", .literal "1",
      .keyword "AND", .identifier "b", .eof]
    4 (.binaryOp (.column "a") "=" (.literal "1")) 7 "AND"
    (by simp +decide [parse_expression]) (Or.inl rfl) (by decide)

/-! ### C10 -/

/-- C10: a single quote with no matching closing quote does not make the
tokenizer fail: the literal silently extends to the end of the input (no escape
handling), and tokenization still terminates with the EndOfInput sentinel. -/
theorem c10_unterminated_literal (rest : List Char) (hq : '\'' ∉ rest) :
    tokenize_from ('\'' :: rest) = .ok [.literal ⟨rest⟩, .eof] ∧
    tokenize ⟨'\'' :: rest⟩ = .ok [.literal ⟨rest⟩, .eof] := by
  have htake : rest.takeWhile (fun ch => ch ≠ '\'') = rest := by
    rw [List.takeWhile_eq_self_iff]
    intro x hx
    simp only [ne_eq, decide_eq_true_eq]
    intro hc
    rw [hc] at hx
    exact hq hx
  have hdrop : rest.dropWhile (fun ch => ch ≠ '\'') = [] := by
    rw [List.dropWhile_eq_nil_iff]
    intro x hx
    simp only [ne_eq, decide_eq_true_eq]
    intro hc
    rw [hc] at hx
    exact hq hx
  have h1 : tokenize_from ('\'' :: rest) = .ok [.literal ⟨rest⟩, .eof] := by
    rw [tokenize_from]
    rw [if_neg (by decide), if_neg (by decide), if_neg (by decide),
      if_neg (by decide), if_neg (by decide), if_neg (by decide),
      if_neg (by decide), if_pos (by decide)]
    rw [htake, hdrop]
    have hnil : tokenize_from ([] : List Char) = .ok [.eof] := by
      rw [tokenize_from]
    rw [show ([] : List Char).tail = [] from rfl, hnil]
    rfl
  exact ⟨h1, h1⟩

/-- C10 witness: tokenizing the input consisting of a quote followed by `abc`
(no closing quote) yields the literal `abc` and the end sentinel. -/
theorem c10_witness :
    tokenize_from ('\'' :: ['a', 'b', 'c']) = .ok [.literal "abc", .eof] ∧
    tokenize ⟨'\'' :: ['a', 'b', 'c']⟩ = .ok [.literal "abc", .eof] :=
  c10_unterminated_literal ['a', 'b', 'c'] (by decide)

end RusticSQL
